import Mathlib

/-!
# gizo dispatcher: scheduling, worker protocol, commit pipeline and block gossip

A shallow embedding of `p2p/dispatcher.go` and `job/exec.go`.

* Go maps (`workers`, `neighbors`) are association lists with unique keys:
  `mapGet` is the lookup `m[k]`, `mapSet` the assignment `m[k] = v`,
  `mapDelete` the builtin `delete(m, k)`.
* A handler that dereferences a nil pointer or calls `glg.Fatal` ends the
  process; the embedding returns `none` there.
* Collaborators that live outside the two source files (signature
  verification, deserialisers, the constants `MaxWorkers` and
  `merkletree.MaxTreeJobs`) are fields of `Env`. Calls to the directory
  service (`centrum`) and log lines have no effect on the state and are left
  out.
* Types whose declarations are not among the source files (`job.Job`, the
  queue item, `WorkerInfo`, `DispatcherInfo`, the two priority queues) follow
  the data model of the specification; each says so in its comment.
* Messages written to sockets and values sent on result channels are
  appended to the logs `sent` and `results` of the dispatcher state.
-/

namespace Gizo

/-! ## Basic data -/

/-- One octet of a Go `[]byte`. -/
abbrev Byte := Fin 256

/-- A `*melody.Session` handle of a worker connection. -/
abbrev Session := Nat

/-- The sixteen digits used by `hex.EncodeToString`. -/
def hexDigit (n : Nat) : Char :=
  match n with
  | 0 => '0' | 1 => '1' | 2 => '2' | 3 => '3'
  | 4 => '4' | 5 => '5' | 6 => '6' | 7 => '7'
  | 8 => '8' | 9 => '9' | 10 => 'a' | 11 => 'b'
  | 12 => 'c' | 13 => 'd' | 14 => 'e' | _ => 'f'

/-- The digits of `hex.EncodeToString`: two per byte, high nibble first. -/
def hexChars : List Byte → List Char
  | [] => []
  | b :: bs => hexDigit (b.val / 16) :: hexDigit (b.val % 16) :: hexChars bs

/-- Go's `hex.EncodeToString`. -/
def hexEncodeToString (bs : List Byte) : String := String.mk (hexChars bs)

/-- Go's `interface{}` as far as `JobExec` uses it: nil, a `[]byte`, or a
value of some other dynamic type. -/
inductive Iface where
  | null
  | bytes (b : List Byte)
  | other (tag : Nat)
deriving DecidableEq, Repr

/-- Modelled from the spec: the status of an execution ("the latest
execution's status dictates whether the job is CANCELLED, RUNNING, or DONE");
the declaration of `job.CANCELLED` is not among the source files. -/
inductive Status where
  | CANCELLED
  | RUNNING
  | DONE
deriving DecidableEq, Repr

/-- The struct `JobExec` of `job/exec.go`, with the status the dispatcher
reads through `GetStatus`. -/
structure JobExec where
  Hash : List Byte
  Timestamp : Int
  Duration : Int
  Err : Iface
  Result : Iface
  By : List Byte
  Status : Status
deriving DecidableEq, Repr

/-- Modelled from the spec: `job.Job`, "a unit of work with a stable id ...
and an ordered list of executions"; its declaration is not among the source
files. -/
structure Job where
  ID : String
  Execs : List JobExec
deriving DecidableEq, Repr

/-- Modelled from the spec: `Job.GetLatestExec`, whose body is not among the
source files: the last of the ordered executions; there is none when the job
never ran. -/
def Job.GetLatestExec (j : Job) : Option JobExec := j.Execs.getLast?

/-- Modelled from the spec: `Job.AddExec`, whose body is not among the source
files: it appends an execution to the ordered list. -/
def Job.AddExec (j : Job) (e : JobExec) : Job := { j with Execs := j.Execs ++ [e] }

/-- Modelled from the spec: the element of the job queue, whose declaration
is not among the source files: a job together with the execution being
prepared for it, read by `GetJob` and `GetExec` (the result channel it carries
is the log `results` of the dispatcher). -/
structure Item where
  Job : Job
  Exec : JobExec
deriving DecidableEq, Repr

/-- Modelled from the spec: the job priority `job.LOW`, not declared in the
source files; HIGH > MEDIUM > LOW. -/
def LOW : Nat := 0

/-- Modelled from the spec: the job priority `job.MEDIUM`. -/
def MEDIUM : Nat := 1

/-- Modelled from the spec: the job priority `job.HIGH`. -/
def HIGH : Nat := 2

/-! ## Priority queues -/

/-- Modelled from the spec: the priority queues `JobPriorityQueue` and
`WorkerPriorityQueue`, not declared in the source files ("max-heap keyed by
priority, FIFO within priority"), as the list of their entries in insertion
order. -/
abbrev PQueue (α : Type) := List (α × Nat)

/-- Modelled from the spec: `push(item, priority)`, the methods `Push` and
`PushItem` of the queues. -/
def PQueue.Push {α : Type} (q : PQueue α) (x : α) (p : Nat) : PQueue α := q ++ [(x, p)]

/-- The greatest priority present in the queue. -/
def PQueue.maxPriority {α : Type} : PQueue α → Nat
  | [] => 0
  | x :: xs => max x.2 (PQueue.maxPriority xs)

/-- Removes the first entry of priority `p`. -/
def PQueue.takeFirst {α : Type} (p : Nat) : PQueue α → Option (α × PQueue α)
  | [] => none
  | x :: xs =>
    if x.2 = p then some (x.1, xs)
    else (PQueue.takeFirst p xs).map (fun r => (r.1, x :: r.2))

/-- Modelled from the spec: `pop() → item`, the oldest entry of greatest
priority; `none` on an empty queue. -/
def PQueue.Pop {α : Type} (q : PQueue α) : Option (α × PQueue α) :=
  PQueue.takeFirst (PQueue.maxPriority q) q

/-- Modelled from the spec: `empty() → bool`. -/
def PQueue.Empty {α : Type} (q : PQueue α) : Bool := q.isEmpty

/-! ## Go maps as association lists -/

/-- The lookup `m[k]` (nil, here `none`, when the key is absent). -/
def mapGet {κ β : Type} [DecidableEq κ] : List (κ × β) → κ → Option β
  | [], _ => none
  | (k', v) :: m, k => if k' = k then some v else mapGet m k

/-- The assignment `m[k] = v`. -/
def mapSet {κ β : Type} [DecidableEq κ] : List (κ × β) → κ → β → List (κ × β)
  | [], k, v => [(k, v)]
  | (k', v') :: m, k, v => if k' = k then (k, v) :: m else (k', v') :: mapSet m k v

/-- The builtin `delete(m, k)`. -/
def mapDelete {κ β : Type} [DecidableEq κ] : List (κ × β) → κ → List (κ × β)
  | [], _ => []
  | (k', v') :: m, k => if k' = k then mapDelete m k else (k', v') :: mapDelete m k

/-! ## Messages -/

/-- The message kinds of the peer protocol. -/
inductive Kind where
  | HELLO | RESULT | SHUT | SHUTACK | BLOCK | BLOCKREQ | BLOCKRES
  | NEIGHBOURCONNECT | NEIGHBOURDISCONNECT | INVALID | CONNFULL | JOB
deriving DecidableEq, Repr

/-- A deserialised `PeerMessage`: kind, payload and signature. -/
structure PeerMessage where
  Message : Kind
  Payload : List Byte
  Signature : List Byte
deriving DecidableEq, Repr

/-- What the dispatcher writes to a socket, named after the constructor
functions the source calls. -/
inductive Sent where
  | HelloMessage (payload : List Byte)
  | ConnFullMessage
  | JobMessage (j : Item)
  | ShutAckMessage
  | InvalidMessage
  | BlockMessage (payload : List Byte)
  | BlockResMessage (payload : List Byte)
  | NeighbourDisconnectMessage (pub : List Byte)
deriving DecidableEq, Repr

/-- A block of the chain, as the bytes that carry it. -/
abbrev Block := List Byte

/-- The collaborators and constants declared outside the two source files. -/
structure Env where
  /-- The constant `MaxWorkers`. -/
  MaxWorkers : Nat
  /-- The constant `merkletree.MaxTreeJobs`. -/
  MaxTreeJobs : Nat
  /-- The method `PeerMessage.VerifySignature(pub string) bool`. -/
  VerifySignature : PeerMessage → String → Bool
  /-- The function `job.DeserializeExec`. -/
  DeserializeExec : List Byte → JobExec
  /-- The pair `core.DeserializeBlock` and `Block.Export`; `none` when either
  reports an error. -/
  DeserializeBlock : List Byte → Option Block

/-! ## Registries -/

/-- Modelled from the spec: `WorkerInfo`, "pubkey, assigned_job (optional Job
reference), shut (bool)"; its declaration is not among the source files. -/
structure WorkerInfo where
  pub : String
  job : Option Item
  shut : Bool
deriving DecidableEq, Repr

/-- Modelled from the spec: `NewWorkerInfo`, whose body is not among the
source files: the record `{pubkey, assigned=None, shut=false}`. -/
def NewWorkerInfo (pub : String) : WorkerInfo := { pub := pub, job := none, shut := false }

/-- The key of the neighbour map, an `interface{}` holding either an accepted
`*melody.Session` or a dialed `*websocket.Conn`. -/
inductive Peer where
  | session (s : Nat)
  | conn (c : Nat)
deriving DecidableEq, Repr

/-- Modelled from the spec: `DispatcherInfo`, "pubkey, known_neighbors (list
of hex pubkeys)"; its declaration is not among the source files. -/
structure DispatcherInfo where
  pub : List Byte
  neighbours : List String
deriving DecidableEq, Repr

/-! ## The dispatcher -/

/-- The fields of `Dispatcher` that the scheduler, the protocol handlers and
the commit pipeline read and write, with the logs `sent`, `sentPeers` and
`results` of what left the process. -/
structure Dispatcher where
  jobPQ : PQueue Item
  workers : List (Session × WorkerInfo)
  neighbors : List (Peer × DispatcherInfo)
  workerPQ : PQueue Session
  bc : List Block
  jobs : List Job
  writeQ : List (List Job)
  sent : List (Session × Sent)
  sentPeers : List (Peer × Sent)
  results : List Item
deriving DecidableEq, Repr

/-- The dispatcher right after `NewDispatcher`: empty queues and registries. -/
def Dispatcher.init : Dispatcher :=
  { jobPQ := [], workers := [], neighbors := [], workerPQ := [], bc := [],
    jobs := [], writeQ := [], sent := [], sentPeers := [], results := [] }

/-- `Dispatcher.GetWorker`. -/
def Dispatcher.GetWorker (d : Dispatcher) (s : Session) : Option WorkerInfo :=
  mapGet d.workers s

/-- `Dispatcher.SetWorker`. -/
def Dispatcher.SetWorker (d : Dispatcher) (s : Session) (w : WorkerInfo) : Dispatcher :=
  { d with workers := mapSet d.workers s w }

/-- `Dispatcher.GetNeighbour`. -/
def Dispatcher.GetNeighbour (d : Dispatcher) (n : Peer) : Option DispatcherInfo :=
  mapGet d.neighbors n

/-- `Dispatcher.EmptyJobs`. -/
def Dispatcher.EmptyJobs (d : Dispatcher) : Dispatcher := { d with jobs := [] }

/-- The body of the loop of `AddJob` at its match: the first entry whose id
is that of `j` receives the execution `e`, every other entry stays. -/
def mergeExec (j : Job) (e : JobExec) : List Job → List Job
  | [] => []
  | val :: rest =>
    if val.ID = j.ID then val.AddExec e :: rest
    else val :: mergeExec j e rest

/-- `Dispatcher.AddJob`. A job without executions has no latest execution to
merge; that call does not return. -/
def Dispatcher.AddJob (env : Env) (d : Dispatcher) (j : Job) : Option Dispatcher :=
  if d.jobs.length < env.MaxTreeJobs then
    match d.jobs.find? (fun val => val.ID = j.ID) with
    | some _ =>
      match j.GetLatestExec with
      | none => none
      | some e => some { d with jobs := mergeExec j e d.jobs }
    | none => some { d with jobs := d.jobs ++ [j] }
  else
    let d1 := { d with writeQ := d.writeQ ++ [d.jobs] }
    let d2 := d1.EmptyJobs
    some { d2 with jobs := d2.jobs ++ [j] }

/-- The bytes of a string of ASCII characters, Go's `[]byte(s)`. -/
def stringBytes (s : String) : List Byte := s.data.map (fun c => (Fin.ofNat c.toNat : Byte))

/-- One iteration of the loop of `Dispatcher.deployJobs`. -/
def Dispatcher.deployJobs (d : Dispatcher) : Option Dispatcher :=
  if d.workerPQ.Empty = false then
    if d.jobPQ.Empty = false then
      match d.workerPQ.Pop with
      | none => some d
      | some (w, wq) =>
        let d1 := { d with workerPQ := wq }
        match d1.GetWorker w with
        | none => none
        | some wi =>
          if !wi.shut then
            match d1.jobPQ.Pop with
            | none => some d1
            | some (j, jq) =>
              let d2 := { d1 with jobPQ := jq }
              if j.Exec.Status ≠ Status.CANCELLED then
                let j1 : Item := { j with Exec := { j.Exec with By := stringBytes wi.pub } }
                let d3 := d2.SetWorker w { wi with job := some j1 }
                some { d3 with sent := d3.sent ++ [(w, Sent.JobMessage j1)] }
              else
                some { d2 with results := d2.results ++ [j] }
          else
            some { d1 with workers := mapDelete d1.workers w }
    else some d
  else some d

/-- The `HandleDisconnect` callback of `wPeerTalk`. -/
def Dispatcher.wHandleDisconnect (d : Dispatcher) (s : Session) : Option Dispatcher :=
  match d.GetWorker s with
  | none => none
  | some wi =>
    let d1 :=
      match wi.job with
      | some j => { d with jobPQ := d.jobPQ.Push j HIGH }
      | none => d
    some (d1.SetWorker s { wi with shut := true })

/-- The tail of the RESULT case of `wPeerTalk`: the session returns to the
worker queue unless it is shut. -/
def Dispatcher.repushWorker (d : Dispatcher) (s : Session) : Option Dispatcher :=
  match d.GetWorker s with
  | none => none
  | some wi =>
    if !wi.shut then some { d with workerPQ := d.workerPQ.Push s 0 }
    else some d

/-- The `HandleMessageBinary` callback of `wPeerTalk`, on the deserialised
message `m` of session `s`; `pub` is the dispatcher's own public key. -/
def Dispatcher.wHandleMessage (env : Env) (pub : List Byte) (d : Dispatcher) (s : Session)
    (m : PeerMessage) : Option Dispatcher :=
  match m.Message with
  | Kind.HELLO =>
    if d.workers.length < env.MaxWorkers then
      let d1 := d.SetWorker s (NewWorkerInfo (hexEncodeToString m.Payload))
      let d2 := { d1 with sent := d1.sent ++ [(s, Sent.HelloMessage pub)] }
      some { d2 with workerPQ := d2.workerPQ.Push s 0 }
    else
      some { d with sent := d.sent ++ [(s, Sent.ConnFullMessage)] }
  | Kind.RESULT =>
    match d.GetWorker s with
    | none => none
    | some wi =>
      if env.VerifySignature m wi.pub then
        match wi.job with
        | none => none
        | some item =>
          let exec := env.DeserializeExec m.Payload
          let item1 : Item := { item with Exec := exec }
          let d1 := { d with results := d.results ++ [item1] }
          let j := item1.Job
          let d2 := d1.SetWorker s { wi with job := none }
          let j1 := j.AddExec exec
          match d2.AddJob env j1 with
          | none => none
          | some d3 => d3.repushWorker s
      else
        match wi.job with
        | none => none
        | some item =>
          let d1 := { d with jobPQ := d.jobPQ.Push item HIGH }
          d1.repushWorker s
  | Kind.SHUT =>
    match d.GetWorker s with
    | none => none
    | some wi =>
      let d1 := d.SetWorker s { wi with shut := true }
      some { d1 with sent := d1.sent ++ [(s, Sent.ShutAckMessage)] }
  | _ => some { d with sent := d.sent ++ [(s, Sent.InvalidMessage)] }

/-! ## Runs of the worker side -/

/-- What can happen to the dispatcher on its worker side. -/
inductive Event where
  /-- Modelled from the spec: a client submits a job ("clients → JobPQ"); the
  code that pushes onto the job queue is not among the source files. -/
  | submit (j : Item) (priority : Nat)
  /-- A binary message arrives on a worker session. -/
  | message (s : Session) (m : PeerMessage)
  /-- A worker session closes. -/
  | disconnect (s : Session)
  /-- The scheduler runs one iteration of its loop. -/
  | deploy
deriving DecidableEq, Repr

/-- The effect of one event. -/
def Dispatcher.step (env : Env) (pub : List Byte) (d : Dispatcher) : Event → Option Dispatcher
  | Event.submit j p => some { d with jobPQ := d.jobPQ.Push j p }
  | Event.message s m => d.wHandleMessage env pub s m
  | Event.disconnect s => d.wHandleDisconnect s
  | Event.deploy => d.deployJobs

/-- The effect of a sequence of events, `none` once a handler has crashed. -/
def Dispatcher.run (env : Env) (pub : List Byte) (d : Dispatcher) : List Event → Option Dispatcher
  | [] => some d
  | e :: es =>
    match d.step env pub e with
    | none => none
    | some d1 => d1.run env pub es

/-! ## The peer side -/

/-- The helper `funk.ContainsString`. -/
def ContainsString (l : List String) (s : String) : Bool := decide (s ∈ l)

/-- `Dispatcher.BroadcastNeighbours`: the message goes to every neighbour. -/
def Dispatcher.BroadcastNeighbours (d : Dispatcher) (m : Sent) : Dispatcher :=
  { d with sentPeers := d.sentPeers ++ d.neighbors.map (fun p => (p.1, m)) }

/-- The registry entries that `MulticastNeighbours` selects for the list
`neigbhours` of hex public keys. -/
def Dispatcher.multicastTargets (d : Dispatcher) (neigbhours : List String) :
    List (Peer × DispatcherInfo) :=
  d.neighbors.filter (fun p => ContainsString neigbhours (hexEncodeToString p.2.pub))

/-- `Dispatcher.MulticastNeighbours`: the message goes to every neighbour
whose hex public key is in `neigbhours`. -/
def Dispatcher.MulticastNeighbours (d : Dispatcher) (m : Sent) (neigbhours : List String) :
    Dispatcher :=
  { d with sentPeers := d.sentPeers ++ (d.multicastTargets neigbhours).map (fun p => (p.1, m)) }

/-- The list `peerToRecv` built by the BLOCK case for the sender `sender`. -/
def Dispatcher.peerToRecv (d : Dispatcher) (sender : DispatcherInfo) : List String :=
  (d.neighbors.filter (fun p =>
    !ContainsString p.2.neighbours (hexEncodeToString sender.pub) &&
      decide (p.2.pub ≠ sender.pub))).map (fun p => hexEncodeToString p.2.pub)

/-- The BLOCK case of `dPeerTalk` and of `HandleNodeConnect` (the two bodies
are the same), for the message `m` of the neighbour `s`. -/
def Dispatcher.handleBlock (env : Env) (d : Dispatcher) (s : Peer) (m : PeerMessage) :
    Option Dispatcher :=
  match d.GetNeighbour s with
  | none => none
  | some info =>
    if env.VerifySignature m (hexEncodeToString info.pub) then
      match env.DeserializeBlock m.Payload with
      | none => none
      | some b =>
        let d1 := { d with bc := d.bc ++ [b] }
        some (d1.MulticastNeighbours (Sent.BlockMessage m.Payload) (d1.peerToRecv info))
    else some d

/-- The registry entries to which the BLOCK case re-sends a block of the
sender `sender`. -/
def Dispatcher.blockRecipients (d : Dispatcher) (sender : DispatcherInfo) :
    List (Peer × DispatcherInfo) :=
  d.multicastTargets (d.peerToRecv sender)

/-- The re-broadcast condition of the spec for a registry entry `n`: its key
differs from the sender's and it does not list the sender as a neighbour. -/
def rebroadcastCondition (sender n : DispatcherInfo) : Prop :=
  n.pub ≠ sender.pub ∧ hexEncodeToString sender.pub ∉ n.neighbours

/-! ## Runs of the commit pipeline -/

/-- The effect of a sequence of `AddJob` calls, `none` once a call has
crashed. -/
def Dispatcher.addJobs (env : Env) (d : Dispatcher) : List Job → Option Dispatcher
  | [] => some d
  | j :: js =>
    match d.AddJob env j with
    | none => none
    | some d1 => d1.addJobs env js

/-- The ids of a list of jobs. -/
def jobIDs (js : List Job) : List String := js.map (fun j => j.ID)

/-- The ids of `ids` in the order of their first occurrence. -/
def firstOccurrences : List String → List String
  | [] => []
  | x :: xs => x :: (firstOccurrences xs).filter (fun y => y ≠ x)

/-- The position of the last occurrence of `a` in `calls`. -/
def lastCall (calls : List String) (a : String) : Nat :=
  calls.length - 1 - calls.reverse.indexOf a

/-- A finished execution with timestamp `t`. -/
def doneExec (t : Int) : JobExec :=
  { Hash := [], Timestamp := t, Duration := 0, Err := Iface.null, Result := Iface.null,
    By := [], Status := Status.DONE }

/-- A job of id `id` whose only execution has timestamp `t`. -/
def jobOf (id : String) (t : Int) : Job := { ID := id, Execs := [doneExec t] }

/-- The commit buffer and the write-queue after the calls `calls`: the calls
split into consecutive segments, one per batch and one for the buffer, and
each batch lists the ids of its segment in the order of first occurrence. -/
def CommitInv (d : Dispatcher) (calls : List Job) : Prop :=
  ∃ (segs : List (List Job)) (cur : List Job), calls = segs.flatten ++ cur ∧
    d.writeQ.map jobIDs = segs.map (fun seg => firstOccurrences (jobIDs seg)) ∧
    jobIDs d.jobs = firstOccurrences (jobIDs cur)

/-- The bound on the commit buffer and the size of the queued batches. -/
def BatchInv (env : Env) (d : Dispatcher) : Prop :=
  d.jobs.length ≤ env.MaxTreeJobs ∧ ∀ batch ∈ d.writeQ, batch.length = env.MaxTreeJobs

/-! ## Block gossip between dispatchers -/

/-- The node behind a neighbour key. -/
def Peer.node : Peer → Nat
  | Peer.session s => s
  | Peer.conn c => c

/-- A peer graph of dispatchers: the public key and the neighbours of every
node. -/
structure Net where
  pk : Nat → List Byte
  nbrs : Nat → List Nat

/-- What a dispatcher records about its neighbour `n` at steady state: the
key of `n` and, as known neighbours, the hex keys of the neighbours `n` has. -/
def Net.info (net : Net) (n : Nat) : DispatcherInfo :=
  { pub := net.pk n, neighbours := (net.nbrs n).map (fun k => hexEncodeToString (net.pk k)) }

/-- The dispatcher of node `u`: its neighbour registry holds one entry per
neighbour. -/
def Net.dispatcherOf (net : Net) (u : Nat) : Dispatcher :=
  { Dispatcher.init with neighbors := (net.nbrs u).map (fun n => (Peer.conn n, net.info n)) }

/-- The nodes to which node `u` re-sends the BLOCK message `m` that it
received from node `s`: the sockets written by `handleBlock`. -/
def Net.forward (env : Env) (net : Net) (m : PeerMessage) (u s : Nat) : List Nat :=
  match (net.dispatcherOf u).handleBlock env (Peer.conn s) m with
  | none => []
  | some d => d.sentPeers.map (fun p => p.1.node)

/-- The progress of one block through the network: the messages under way,
as pairs of sender and receiver, and the nodes that received the block, in
the order of reception. -/
structure Gossip where
  inflight : List (Nat × Nat)
  received : List Nat
deriving DecidableEq, Repr

/-- The element at position `k` together with the list without it. -/
def pickAt {α : Type} : List α → Nat → Option (α × List α)
  | [], _ => none
  | x :: xs, 0 => some (x, xs)
  | x :: xs, k + 1 => (pickAt xs k).map (fun r => (r.1, x :: r.2))

/-- The delivery of the message at position `k` of those under way: the
receiver handles the BLOCK and its re-sent copies are under way in turn. -/
def Net.deliver (env : Env) (net : Net) (m : PeerMessage) (g : Gossip) (k : Nat) : Gossip :=
  match pickAt g.inflight k with
  | none => g
  | some ((s, u), rest) =>
    { inflight := rest ++ (net.forward env m u s).map (fun n => (u, n))
      received := g.received ++ [u] }

/-- The run of the network under a delivery order: each number of `order`
selects, modulo their count, which message under way is delivered next. -/
def Net.gossip (env : Env) (net : Net) (m : PeerMessage) : Gossip → List Nat → Gossip
  | g, [] => g
  | g, k :: ks => Net.gossip env net m (Net.deliver env net m g (k % g.inflight.length)) ks

/-- The origin `v` broadcasts a new block, as `WriteJobs` does through
`BroadcastNeighbours`. -/
def Net.originate (net : Net) (m : PeerMessage) (v : Nat) : Gossip :=
  { inflight :=
      ((net.dispatcherOf v).BroadcastNeighbours (Sent.BlockMessage m.Payload)).sentPeers.map
        (fun p => (v, p.1.node))
    received := [] }

/-- The children of node `u` in the tree on the nodes `0, ..., n - 1` in
which every node `c ≥ 1` has the parent `parent c`. -/
def treeChildren (n : Nat) (parent : Nat → Nat) (u : Nat) : List Nat :=
  (List.range n).filter (fun c => decide (1 ≤ c) && decide (parent c = u))

/-- The peer graph of that tree: a node is connected to its parent and to
its children. -/
def treeNet (pk : Nat → List Byte) (n : Nat) (parent : Nat → Nat) : Net :=
  { pk := pk
    nbrs := fun u => (if 1 ≤ u ∧ u < n then [parent u] else []) ++ treeChildren n parent u }

/-- What holds of a block under way in a tree: every message travels from a
parent to a child, no node is reached twice, and the children of every node
reached are reached or about to be. -/
def TreeGossipInv (n : Nat) (parent : Nat → Nat) (g : Gossip) : Prop :=
  (∀ p ∈ g.inflight, 1 ≤ p.2 ∧ p.2 < n ∧ p.1 = parent p.2) ∧
  (g.received ++ g.inflight.map (fun p => p.2)).Nodup ∧
  (∀ x ∈ g.received, 1 ≤ x ∧ x < n) ∧
  (∀ c, 1 ≤ c → c < n → (parent c = 0 ∨ parent c ∈ g.received) →
    c ∈ g.received ++ g.inflight.map (fun p => p.2)) ∧
  (∀ c ∈ g.received ++ g.inflight.map (fun p => p.2), parent c = 0 ∨ parent c ∈ g.received)

/-! ## Scenario data -/

/-- An environment with `MaxWorkers = 2` and `MaxTreeJobs = 3`, in which a
signature verifies exactly when it is the single byte 1. -/
def scenarioEnv : Env :=
  { MaxWorkers := 2
    MaxTreeJobs := 3
    VerifySignature := fun m _ => m.Signature = [1]
    DeserializeExec := fun p =>
      { Hash := [], Timestamp := 0, Duration := 0, Err := Iface.null, Result := Iface.bytes p,
        By := [], Status := Status.DONE }
    DeserializeBlock := fun p => some p }

/-- An execution that is about to run. -/
def runningExec : JobExec :=
  { Hash := [], Timestamp := 0, Duration := 0, Err := Iface.null, Result := Iface.null,
    By := [], Status := Status.RUNNING }

/-- A queue item for job `j1`. -/
def itemJ1 : Item := { Job := { ID := "j1", Execs := [] }, Exec := runningExec }

/-- A queue item for job `j1` whose latest execution is cancelled. -/
def cancelledJ1 : Item :=
  { Job := { ID := "j1", Execs := [] }, Exec := { runningExec with Status := Status.CANCELLED } }

/-- The HELLO of a worker with public key `p`. -/
def helloOf (p : List Byte) : PeerMessage := { Message := Kind.HELLO, Payload := p, Signature := [] }

/-- A RESULT whose signature does not verify in `scenarioEnv`. -/
def badResult : PeerMessage := { Message := Kind.RESULT, Payload := [7], Signature := [0] }

/-- A SHUT message. -/
def shutMsg : PeerMessage := { Message := Kind.SHUT, Payload := [], Signature := [1] }

/-- The sessions whose registry entry holds a job of id `id` as assigned job. -/
def Dispatcher.holders (d : Dispatcher) (id : String) : List Session :=
  (d.workers.filter (fun p =>
    match p.2.job with
    | some j => decide (j.Job.ID = id)
    | none => false)).map (fun p => p.1)

/-- The sessions present in the worker queue. -/
def Dispatcher.queuedWorkers (d : Dispatcher) : List Session := d.workerPQ.map (fun p => p.1)

/-- The sessions to which a JOB message was written. -/
def Dispatcher.jobsSent (d : Dispatcher) : List Session :=
  (d.sent.filter (fun p =>
    match p.2 with
    | Sent.JobMessage _ => true
    | _ => false)).map (fun p => p.1)

/-- A BLOCK message with a signature that verifies in `scenarioEnv`. -/
def blockMsg : PeerMessage := { Message := Kind.BLOCK, Payload := [5], Signature := [1] }

/-- A registry in which the peer of key `01` is connected twice, once over an
accepted session and once over a dialed connection, next to the peer of key
`02`. -/
def twiceConnected : Dispatcher :=
  { Dispatcher.init with
    neighbors :=
      [(Peer.session 1, { pub := [1], neighbours := [] }),
       (Peer.conn 2, { pub := [1], neighbours := ["02"] }),
       (Peer.session 3, { pub := [2], neighbours := [] })] }

/-- The ring of four dispatchers 0 – 1 – 2 – 3 – 0. -/
def ringNet : Net :=
  { pk := fun i => [Fin.ofNat i]
    nbrs := fun u =>
      match u with
      | 0 => [1, 3]
      | 1 => [0, 2]
      | 2 => [1, 3]
      | 3 => [2, 0]
      | _ => [] }

/-- The line of three dispatchers 0 – 1 – 2 as a tree rooted at 0. -/
def lineNet : Net := treeNet (fun i => List.replicate i 0) 3 (fun c => c - 1)

/-- A dispatcher whose only worker, session 1, is busy with job `j1`. -/
def busyWorker : Dispatcher :=
  { Dispatcher.init with workers := [(1, { pub := "aa", job := some itemJ1, shut := false })] }

/-- A dispatcher whose registry holds `MaxWorkers = 2` idle workers. -/
def fullRegistry : Dispatcher :=
  { Dispatcher.init with
    workers := [(1, NewWorkerInfo "aa"), (2, NewWorkerInfo "ab")]
    workerPQ := [(1, 0), (2, 0)] }

/-- A commit buffer that holds the jobs `a` and `b`. -/
def twoBuffered : Dispatcher := { Dispatcher.init with jobs := [jobOf "a" 1, jobOf "b" 2] }

/-- A commit buffer that holds `MaxTreeJobs = 3` jobs. -/
def fullBuffer : Dispatcher :=
  { Dispatcher.init with jobs := [jobOf "a" 1, jobOf "b" 2, jobOf "c" 3] }

/-- The commit buffer after the results of `a`, of `b` and again of `a`. -/
def mergedBuffer : Dispatcher :=
  { Dispatcher.init with
    jobs := [{ ID := "a", Execs := [doneExec 1, doneExec 3] }, jobOf "b" 2] }

/-- The commit pipeline after four results of distinct jobs. -/
def afterFour : Dispatcher :=
  { Dispatcher.init with
    writeQ := [[jobOf "a" 1, jobOf "b" 2, jobOf "c" 3]], jobs := [jobOf "d" 4] }

/-! ## The handlers of the peer protocol -/

/-- The collaborators of the peer side that are declared outside the two
source files, next to those of `Env`. -/
structure PeerEnv extends Env where
  /-- The function `DeserializeDispatcherHello`, to the key and the neighbours
  a HELLO carries. -/
  DeserializeDispatcherHello : List Byte → DispatcherInfo
  /-- The composition `NewDispatcherHello(pub, neighbours).Serialize()`. -/
  SerializeDispatcherHello : List Byte → List String → List Byte
  /-- The lookup `GetBlockInfo(hash)` in the chain followed by
  `GetBlock().Serialize()`; `none` when the chain has no block of that hash. -/
  GetBlockInfo : List Block → List Byte → Option (List Byte)

/-- `Dispatcher.NewNeighbour`. -/
def Dispatcher.NewNeighbour (d : Dispatcher) (s : Peer) (n : DispatcherInfo) : Dispatcher :=
  { d with neighbors := mapSet d.neighbors s n }

/-- `Dispatcher.GetNeighboursPubs`. -/
def Dispatcher.GetNeighboursPubs (d : Dispatcher) : List String :=
  d.neighbors.map (fun p => hexEncodeToString p.2.pub)

/-- Modelled from the spec: `DispatcherInfo.AddNeighbour`, whose body is not
among the source files: it adds a hex key to the known neighbours. -/
def DispatcherInfo.AddNeighbour (n : DispatcherInfo) (x : String) : DispatcherInfo :=
  { n with neighbours := n.neighbours ++ [x] }

/-- The loop of the NEIGHBOURDISCONNECT case of `dPeerTalk`: the first
occurrence of `x` is cut out and the loop breaks; `none` when `x` does not
occur and `SetNeighbours` is not called. -/
def cutFirst (x : String) : List String → Option (List String)
  | [] => none
  | y :: ys => if y = x then some ys else (cutFirst x ys).map (fun r => y :: r)

/-- The loop of the NEIGHBOURDISCONNECT case of `HandleNodeConnect`, which
has no `break`: it runs over all `n` positions of the slice `neighbours`, and
at every position `i` that holds `x` the call
`append(neighbours[:i], neighbours[i+1:]...)` shifts the shared array to the
left and its result is stored. With `k` positions left, `arr` is the array
and `cur` what was stored last. -/
def cutEvery (x : String) (n : Nat) : Nat → List String → Option (List String) →
    Option (List String)
  | 0, _, cur => cur
  | k + 1, arr, cur =>
    if arr.get? (n - (k + 1)) = some x then
      cutEvery x n k
        (arr.take (n - (k + 1)) ++ arr.drop (n - (k + 1) + 1) ++ arr.drop (n - 1))
        (some (arr.take (n - (k + 1)) ++ arr.drop (n - (k + 1) + 1)))
    else cutEvery x n k arr cur

/-- The case BLOCKREQ of `dPeerTalk`. The error of `GetBlockInfo` is dropped
by the source and the block info dereferenced; without a block that call does
not return. -/
def Dispatcher.handleBlockReq (env : PeerEnv) (d : Dispatcher) (s : Peer) (m : PeerMessage) :
    Option Dispatcher :=
  match d.GetNeighbour s with
  | none => none
  | some info =>
    if env.VerifySignature m (hexEncodeToString info.pub) then
      match env.GetBlockInfo d.bc m.Payload with
      | none => none
      | some b => some { d with sentPeers := d.sentPeers ++ [(s, Sent.BlockResMessage b)] }
    else some d

/-- The case NEIGHBOURCONNECT of `dPeerTalk` and of `HandleNodeConnect` (the
two bodies are the same). -/
def Dispatcher.handleNeighbourConnect (env : PeerEnv) (d : Dispatcher) (s : Peer)
    (m : PeerMessage) : Option Dispatcher :=
  match d.GetNeighbour s with
  | none => none
  | some info =>
    if env.VerifySignature m (hexEncodeToString info.pub) then
      some (d.NewNeighbour s (info.AddNeighbour (hexEncodeToString m.Payload)))
    else some d

/-- The case NEIGHBOURDISCONNECT of `dPeerTalk`. -/
def Dispatcher.handleNeighbourDisconnect (env : PeerEnv) (d : Dispatcher) (s : Peer)
    (m : PeerMessage) : Option Dispatcher :=
  match d.GetNeighbour s with
  | none => none
  | some info =>
    if env.VerifySignature m (hexEncodeToString info.pub) then
      match cutFirst (hexEncodeToString m.Payload) info.neighbours with
      | some ns => some (d.NewNeighbour s { info with neighbours := ns })
      | none => some d
    else some d

/-- The case NEIGHBOURDISCONNECT of `HandleNodeConnect`. -/
def Dispatcher.nodeNeighbourDisconnect (env : PeerEnv) (d : Dispatcher) (conn : Peer)
    (m : PeerMessage) : Option Dispatcher :=
  match d.GetNeighbour conn with
  | none => none
  | some info =>
    if env.VerifySignature m (hexEncodeToString info.pub) then
      match cutEvery (hexEncodeToString m.Payload) info.neighbours.length
          info.neighbours.length info.neighbours none with
      | some ns => some (d.NewNeighbour conn { info with neighbours := ns })
      | none => some d
    else some d

/-- The case BLOCKRES of `HandleNodeConnect`. -/
def Dispatcher.nodeBlockRes (env : PeerEnv) (d : Dispatcher) (conn : Peer) (m : PeerMessage) :
    Option Dispatcher :=
  match d.GetNeighbour conn with
  | none => none
  | some info =>
    if env.VerifySignature m (hexEncodeToString info.pub) then
      match env.DeserializeBlock m.Payload with
      | none => none
      | some b => some { d with bc := d.bc ++ [b] }
    else some d

/-- The `HandleMessageBinary` callback of `dPeerTalk`, on the deserialised
message `m` of the accepted session `s`; `pub` is the dispatcher's own public
key. -/
def Dispatcher.dHandleMessage (env : PeerEnv) (pub : List Byte) (d : Dispatcher) (s : Peer)
    (m : PeerMessage) : Option Dispatcher :=
  match m.Message with
  | Kind.HELLO =>
    let info := env.DeserializeDispatcherHello m.Payload
    let d1 := d.NewNeighbour s { pub := info.pub, neighbours := info.neighbours }
    some { d1 with
      sentPeers := d1.sentPeers ++
        [(s, Sent.HelloMessage (env.SerializeDispatcherHello pub d1.GetNeighboursPubs))] }
  | Kind.BLOCK => d.handleBlock env.toEnv s m
  | Kind.BLOCKREQ => d.handleBlockReq env s m
  | Kind.NEIGHBOURCONNECT => d.handleNeighbourConnect env s m
  | Kind.NEIGHBOURDISCONNECT => d.handleNeighbourDisconnect env s m
  | _ => some { d with sentPeers := d.sentPeers ++ [(s, Sent.InvalidMessage)] }

/-- The `switch` of the read loop of `HandleNodeConnect`, on the deserialised
message `m` of the dialed connection `conn`. It has no case BLOCKREQ. -/
def Dispatcher.nodeHandleMessage (env : PeerEnv) (d : Dispatcher) (conn : Peer)
    (m : PeerMessage) : Option Dispatcher :=
  match m.Message with
  | Kind.HELLO =>
    match d.GetNeighbour conn with
    | none => none
    | some info =>
      let peerInfo := env.DeserializeDispatcherHello m.Payload
      if info.pub = peerInfo.pub then
        some (d.NewNeighbour conn { info with neighbours := peerInfo.neighbours })
      else some { d with neighbors := mapDelete d.neighbors conn }
  | Kind.BLOCK => d.handleBlock env.toEnv conn m
  | Kind.BLOCKRES => d.nodeBlockRes env conn m
  | Kind.NEIGHBOURCONNECT => d.handleNeighbourConnect env conn m
  | Kind.NEIGHBOURDISCONNECT => d.nodeNeighbourDisconnect env conn m
  | _ => some { d with sentPeers := d.sentPeers ++ [(conn, Sent.InvalidMessage)] }

/-! ## The execution hash -/

/-- Go's `bytes.Join`: the elements of `s` with `sep` between them. -/
def bytesJoin (s : List (List Byte)) (sep : List Byte) : List Byte :=
  match s with
  | [] => []
  | [x] => x
  | x :: y :: rest => x ++ sep ++ bytesJoin (y :: rest) sep

/-- The ASCII codes of the decimal digits of `n`. -/
def decimalDigits (n : Nat) : List Byte :=
  (Nat.toDigits 10 n).map (fun c => (Fin.ofNat c.toNat : Byte))

/-- Go's `strconv.FormatInt(i, 10)` as bytes: the decimal digits, after a
minus sign when `i` is negative. -/
def FormatInt10 (i : Int) : List Byte :=
  match i with
  | Int.ofNat n => decimalDigits n
  | Int.negSucc n => 45 :: decimalDigits (n + 1)

/-- `JobExec.setHash`, with the function `Sum256` for `sha256.Sum256`. The
type assertions `.([]byte)` on `Err` and `Result` end the process when the
value is not a byte slice. -/
def JobExec.setHash (Sum256 : List Byte → List Byte) (j : JobExec) : Option JobExec :=
  match j.Err with
  | Iface.bytes e =>
    match j.Result with
    | Iface.bytes r =>
      let headers :=
        bytesJoin [FormatInt10 j.Timestamp, FormatInt10 j.Duration, e, r, j.By] []
      some { j with Hash := Sum256 headers }
    | _ => none
  | _ => none

/-! ## Scenario data of the peer protocol and of the hash -/

/-- The environment `scenarioEnv` with a chain lookup that finds nothing. -/
def scenarioPeerEnv : PeerEnv :=
  { toEnv := scenarioEnv
    DeserializeDispatcherHello := fun p => { pub := p, neighbours := [] }
    SerializeDispatcherHello := fun p _ => p
    GetBlockInfo := fun _ _ => none }

/-- A dispatcher with one neighbour, of key `01`, on the dialed connection 1. -/
def dialedNeighbour : Dispatcher :=
  { Dispatcher.init with neighbors := [(Peer.conn 1, { pub := [1], neighbours := ["02"] })] }

/-- A BLOCKREQ whose signature does not verify in `scenarioEnv`. -/
def badBlockReq : PeerMessage := { Message := Kind.BLOCKREQ, Payload := [3], Signature := [0] }

/-- A NEIGHBOURCONNECT whose signature does not verify in `scenarioEnv`. -/
def badConnect : PeerMessage :=
  { Message := Kind.NEIGHBOURCONNECT, Payload := [3], Signature := [0] }

/-- An execution with timestamp 1541376000, a duration of 250 ns, an empty
error, the result `ok` and the worker key `aa`. -/
def okExec : JobExec :=
  { Hash := [], Timestamp := 1541376000, Duration := 250, Err := Iface.bytes [],
    Result := Iface.bytes [111, 107], By := [0xAA], Status := Status.DONE }

/-- The eight directed edges of the ring 0 – 1 – 2 – 3 – 0. -/
def ringEdges : List (Nat × Nat) :=
  [(0, 1), (1, 2), (2, 3), (3, 0), (1, 0), (2, 1), (3, 2), (0, 3)]

/-- What holds of a block under way on the ring: two copies travel, each
along an edge of the ring. -/
def RingGossipInv (g : Gossip) : Prop :=
  g.inflight.length = 2 ∧ ∀ p ∈ g.inflight, p ∈ ringEdges

/-! ## Lemmas on maps -/

theorem mapGet_mapSet_self {κ β : Type} [DecidableEq κ] (m : List (κ × β)) (k : κ) (v : β) :
    mapGet (mapSet m k v) k = some v := by
  induction m with
  | nil => simp [mapSet, mapGet]
  | cons x m ih =>
    obtain ⟨k', v'⟩ := x
    by_cases h : k' = k
    · simp [mapSet, mapGet, h]
    · simp [mapSet, mapGet, h, ih]

theorem mapGet_mapSet_of_ne {κ β : Type} [DecidableEq κ] (m : List (κ × β)) (k k1 : κ) (v : β)
    (hne : k1 ≠ k) : mapGet (mapSet m k v) k1 = mapGet m k1 := by
  induction m with
  | nil => simp [mapSet, mapGet, Ne.symm hne]
  | cons x m ih =>
    obtain ⟨k', v'⟩ := x
    by_cases h : k' = k
    · subst h
      simp [mapSet, mapGet, Ne.symm hne]
    · by_cases h1 : k' = k1
      · subst h1
        simp [mapSet, mapGet, h]
      · simp [mapSet, mapGet, h, h1, ih]

theorem mapSet_length_of_get {κ β : Type} [DecidableEq κ] (m : List (κ × β)) (k : κ) (v v1 : β)
    (hget : mapGet m k = some v) : (mapSet m k v1).length = m.length := by
  induction m with
  | nil => simp [mapGet] at hget
  | cons x m ih =>
    obtain ⟨k', v'⟩ := x
    by_cases h : k' = k
    · simp [mapSet, h]
    · simp [mapGet, h] at hget
      simp [mapSet, h, ih hget]

theorem mapSet_length_le {κ β : Type} [DecidableEq κ] (m : List (κ × β)) (k : κ) (v : β) :
    (mapSet m k v).length ≤ m.length + 1 := by
  induction m with
  | nil => simp [mapSet]
  | cons x m ih =>
    obtain ⟨k', v'⟩ := x
    by_cases h : k' = k
    · simp [mapSet, h]
    · simp [mapSet, h, ih]

theorem mapDelete_length_le {κ β : Type} [DecidableEq κ] (m : List (κ × β)) (k : κ) :
    (mapDelete m k).length ≤ m.length := by
  induction m with
  | nil => simp [mapDelete]
  | cons x m ih =>
    obtain ⟨k', v'⟩ := x
    by_cases h : k' = k
    · simp [mapDelete, h]; omega
    · simp [mapDelete, h, ih]

theorem mapSet_keys_of_get {κ β : Type} [DecidableEq κ] (m : List (κ × β)) (k : κ) (v v1 : β)
    (hget : mapGet m k = some v) :
    (mapSet m k v1).map (fun p => p.1) = m.map (fun p => p.1) := by
  induction m with
  | nil => simp [mapGet] at hget
  | cons x m ih =>
    obtain ⟨k', v'⟩ := x
    by_cases h : k' = k
    · simp [mapSet, h]
    · simp [mapGet, h] at hget
      simp [mapSet, h, ih hget]

/-! ## The registry never exceeds `MaxWorkers` -/

theorem AddJob_frame (env : Env) (d d1 : Dispatcher) (j : Job) (h : d.AddJob env j = some d1) :
    d1.workers = d.workers ∧ d1.workerPQ = d.workerPQ ∧ d1.jobPQ = d.jobPQ ∧
      d1.sent = d.sent ∧ d1.results = d.results := by
  unfold Dispatcher.AddJob at h
  split at h
  · split at h
    · split at h
      · simp at h
      · simp at h; subst h; simp
    · simp at h; subst h; simp
  · simp [Dispatcher.EmptyJobs] at h; subst h; simp

theorem repushWorker_workers (d d1 : Dispatcher) (s : Session) (h : d.repushWorker s = some d1) :
    d1.workers = d.workers := by
  unfold Dispatcher.repushWorker at h
  split at h
  · simp at h
  · split at h <;> (simp at h; subst h; rfl)

theorem wHandleDisconnect_workers_length (d d1 : Dispatcher) (s : Session)
    (h : d.wHandleDisconnect s = some d1) : d1.workers.length = d.workers.length := by
  unfold Dispatcher.wHandleDisconnect at h
  cases hwi : d.GetWorker s with
  | none => simp [hwi] at h
  | some wi =>
    simp only [hwi, Option.some.injEq] at h
    subst h
    cases hj : wi.job with
    | none => exact mapSet_length_of_get _ s wi _ hwi
    | some j => exact mapSet_length_of_get _ s wi _ hwi

theorem deployJobs_workers_length (d d1 : Dispatcher) (h : d.deployJobs = some d1) :
    d1.workers.length ≤ d.workers.length := by
  unfold Dispatcher.deployJobs at h
  try dsimp only at h
  split at h
  · try dsimp only at h
    split at h
    · try dsimp only at h
      split at h
      · simp at h; subst h; exact le_refl _
      · rename_i w wq hpop
        try dsimp only at h
        split at h
        · simp at h
        · rename_i wi hwi
          try dsimp only at h
          split at h
          · try dsimp only at h
            split at h
            · simp at h; subst h; exact le_refl _
            · rename_i j jq hj
              try dsimp only at h
              split at h
              · simp at h; subst h
                simp only [Dispatcher.SetWorker]
                exact le_of_eq (mapSet_length_of_get _ w wi _ hwi)
              · simp at h; subst h; exact le_refl _
          · simp at h; subst h
            exact mapDelete_length_le _ _
    · simp at h; subst h; exact le_refl _
  · simp at h; subst h; exact le_refl _

theorem wHandleMessage_workers_length (env : Env) (pub : List Byte) (d d1 : Dispatcher)
    (s : Session) (m : PeerMessage) (h : d.wHandleMessage env pub s m = some d1)
    (hd : d.workers.length ≤ env.MaxWorkers) : d1.workers.length ≤ env.MaxWorkers := by
  unfold Dispatcher.wHandleMessage at h
  try dsimp only at h
  split at h
  · try dsimp only at h
    split at h
    · rename_i hlt
      simp at h; subst h
      simp only [Dispatcher.SetWorker]
      have := mapSet_length_le d.workers s (NewWorkerInfo (hexEncodeToString m.Payload))
      omega
    · simp at h; subst h; exact hd
  · try dsimp only at h
    split at h
    · simp at h
    · rename_i wi hwi
      try dsimp only at h
      split at h
      · try dsimp only at h
        split at h
        · simp at h
        · rename_i item hitem
          try dsimp only at h
          split at h
          · simp at h
          · rename_i d3 hd3
            rw [repushWorker_workers _ _ _ h, (AddJob_frame _ _ _ _ hd3).1]
            simp only [Dispatcher.SetWorker]
            rw [mapSet_length_of_get _ s wi _ hwi]
            exact hd
      · try dsimp only at h
        split at h
        · simp at h
        · rw [repushWorker_workers _ _ _ h]
          exact hd
  · try dsimp only at h
    split at h
    · simp at h
    · rename_i wi hwi
      simp at h; subst h
      simp only [Dispatcher.SetWorker]
      rw [mapSet_length_of_get _ s wi _ hwi]
      exact hd
  · simp at h; subst h; exact hd

theorem step_workers_length (env : Env) (pub : List Byte) (d d1 : Dispatcher) (e : Event)
    (h : d.step env pub e = some d1) (hd : d.workers.length ≤ env.MaxWorkers) :
    d1.workers.length ≤ env.MaxWorkers := by
  cases e with
  | submit j p => simp [Dispatcher.step] at h; subst h; exact hd
  | message s m => exact wHandleMessage_workers_length env pub d d1 s m h hd
  | disconnect s =>
    have := wHandleDisconnect_workers_length d d1 s h
    omega
  | deploy =>
    have := deployJobs_workers_length d d1 h
    omega

theorem run_workers_length (env : Env) (pub : List Byte) (es : List Event) :
    ∀ (d d1 : Dispatcher), d.run env pub es = some d1 → d.workers.length ≤ env.MaxWorkers →
      d1.workers.length ≤ env.MaxWorkers := by
  induction es with
  | nil =>
    intro d d1 h hd
    simp [Dispatcher.run] at h
    subst h
    exact hd
  | cons e es ih =>
    intro d d1 h hd
    simp only [Dispatcher.run] at h
    try dsimp only at h
    split at h
    · simp at h
    · rename_i d2 hstep
      exact ih d2 d1 h (step_workers_length env pub d d2 e hstep hd)

/-! ## The commit pipeline -/

theorem mergeExec_spec (j : Job) (e : JobExec) (js : List Job)
    (h : ∃ val ∈ js, val.ID = j.ID) :
    ∃ pre val post, js = pre ++ val :: post ∧ val.ID = j.ID ∧ (∀ x ∈ pre, x.ID ≠ j.ID) ∧
      mergeExec j e js = pre ++ val.AddExec e :: post := by
  induction js with
  | nil => simp at h
  | cons x xs ih =>
    by_cases hx : x.ID = j.ID
    · exact ⟨[], x, xs, rfl, hx, by simp, by simp [mergeExec, hx]⟩
    · have h1 : ∃ val ∈ xs, val.ID = j.ID := by
        obtain ⟨val, hmem, hid⟩ := h
        rcases List.mem_cons.mp hmem with heq | hmem1
        · subst heq; exact absurd hid hx
        · exact ⟨val, hmem1, hid⟩
      obtain ⟨pre, val, post, hjs, hid, hpre, hm⟩ := ih h1
      refine ⟨x :: pre, val, post, by simp [hjs], hid, ?_, by simp [mergeExec, hx, hm]⟩
      intro y hy
      rcases List.mem_cons.mp hy with heq | hmem1
      · subst heq; exact hx
      · exact hpre y hmem1

theorem find_isSome_of_id (j : Job) (js : List Job) (h : ∃ val ∈ js, val.ID = j.ID) :
    ∃ v, js.find? (fun val => val.ID = j.ID) = some v := by
  cases hf : js.find? (fun val => val.ID = j.ID) with
  | some v => exact ⟨v, rfl⟩
  | none =>
    obtain ⟨val, hmem, hid⟩ := h
    have := List.find?_eq_none.mp hf val hmem
    simp [hid] at this

theorem firstOccurrences_mem (l : List String) (y : String) :
    y ∈ firstOccurrences l ↔ y ∈ l := by
  induction l with
  | nil => simp [firstOccurrences]
  | cons x xs ih =>
    simp only [firstOccurrences, List.mem_cons, List.mem_filter, ih]
    by_cases h : y = x
    · simp [h]
    · simp [h]

theorem firstOccurrences_snoc (l : List String) (y : String) :
    firstOccurrences (l ++ [y]) = if y ∈ l then firstOccurrences l else firstOccurrences l ++ [y] := by
  induction l with
  | nil => simp [firstOccurrences]
  | cons x xs ih =>
    rw [List.cons_append, firstOccurrences, firstOccurrences, ih]
    by_cases hy : y ∈ xs
    · simp [hy]
    · by_cases hx : y = x
      · subst hx
        simp [hy, List.filter_append]
      · simp [hy, hx, List.filter_append]

theorem mergeExec_ids (j : Job) (e : JobExec) (js : List Job) :
    jobIDs (mergeExec j e js) = jobIDs js := by
  induction js with
  | nil => rfl
  | cons x xs ih =>
    by_cases hx : x.ID = j.ID
    · simp [mergeExec, hx, jobIDs, Job.AddExec]
    · simp only [jobIDs] at ih
      simp [mergeExec, hx, jobIDs, ih]

theorem find_none_of_id (j : Job) (js : List Job) (h : j.ID ∉ jobIDs js) :
    js.find? (fun val => val.ID = j.ID) = none := by
  rw [List.find?_eq_none]
  intro x hx hid
  apply h
  simp only [jobIDs, List.mem_map]
  exact ⟨x, hx, by simpa using hid⟩

theorem find_some_id (j v : Job) (js : List Job)
    (h : js.find? (fun val => val.ID = j.ID) = some v) : j.ID ∈ jobIDs js := by
  have h1 := List.find?_some h
  have h2 := List.mem_of_find?_eq_some h
  simp only [jobIDs, List.mem_map]
  exact ⟨v, h2, by simpa using h1⟩

theorem AddJob_CommitInv (env : Env) (d d1 : Dispatcher) (calls : List Job) (j : Job)
    (hinv : CommitInv d calls) (h : d.AddJob env j = some d1) : CommitInv d1 (calls ++ [j]) := by
  obtain ⟨segs, cur, hcalls, hq, hbuf⟩ := hinv
  unfold Dispatcher.AddJob at h
  split at h
  · split at h
    · rename_i v hfind
      split at h
      · simp at h
      · rename_i e he
        simp only [Option.some.injEq] at h
        subst h
        refine ⟨segs, cur ++ [j], by simp [hcalls], hq, ?_⟩
        have hmem : j.ID ∈ jobIDs cur := by
          rw [← firstOccurrences_mem, ← hbuf]
          exact find_some_id j v d.jobs hfind
        show jobIDs (mergeExec j e d.jobs) = firstOccurrences (jobIDs (cur ++ [j]))
        rw [mergeExec_ids, hbuf]
        have : jobIDs (cur ++ [j]) = jobIDs cur ++ [j.ID] := by simp [jobIDs]
        rw [this, firstOccurrences_snoc, if_pos hmem]
    · rename_i hfind
      simp only [Option.some.injEq] at h
      subst h
      refine ⟨segs, cur ++ [j], by simp [hcalls], hq, ?_⟩
      have hmem : j.ID ∉ jobIDs cur := by
        rw [← firstOccurrences_mem, ← hbuf]
        intro hin
        simp only [jobIDs, List.mem_map] at hin
        obtain ⟨x, hx, hid⟩ := hin
        have := List.find?_eq_none.mp hfind x hx
        simp [hid] at this
      show jobIDs (d.jobs ++ [j]) = firstOccurrences (jobIDs (cur ++ [j]))
      have h1 : jobIDs (cur ++ [j]) = jobIDs cur ++ [j.ID] := by simp [jobIDs]
      have h2 : jobIDs (d.jobs ++ [j]) = jobIDs d.jobs ++ [j.ID] := by simp [jobIDs]
      rw [h1, h2, firstOccurrences_snoc, if_neg hmem, hbuf]
  · simp only [Dispatcher.EmptyJobs, List.nil_append, Option.some.injEq] at h
    subst h
    refine ⟨segs ++ [cur], [j], by simp [hcalls], ?_, ?_⟩
    · show (d.writeQ ++ [d.jobs]).map jobIDs = _
      simp [hq, hbuf]
    · show jobIDs [j] = firstOccurrences (jobIDs [j])
      simp [jobIDs, firstOccurrences]

theorem addJobs_CommitInv (env : Env) (js : List Job) :
    ∀ (d d1 : Dispatcher) (calls : List Job), CommitInv d calls →
      d.addJobs env js = some d1 → CommitInv d1 (calls ++ js) := by
  induction js with
  | nil =>
    intro d d1 calls hinv h
    simp only [Dispatcher.addJobs, Option.some.injEq] at h
    subst h
    simpa using hinv
  | cons j js ih =>
    intro d d1 calls hinv h
    simp only [Dispatcher.addJobs] at h
    split at h
    · simp at h
    · rename_i d2 hstep
      have := ih d2 d1 (calls ++ [j]) (AddJob_CommitInv env d d2 calls j hinv hstep) h
      simpa using this

theorem mergeExec_length (j : Job) (e : JobExec) (js : List Job) :
    (mergeExec j e js).length = js.length := by
  induction js with
  | nil => rfl
  | cons x xs ih =>
    by_cases hx : x.ID = j.ID
    · simp [mergeExec, hx]
    · simp [mergeExec, hx, ih]

theorem AddJob_handoff (env : Env) (d d1 : Dispatcher) (j : Job)
    (hinv : BatchInv env d) (h : d.AddJob env j = some d1) :
    (d.jobs.length < env.MaxTreeJobs ∧ d1.writeQ = d.writeQ ∧ d1.jobs.length ≤ d.jobs.length + 1) ∨
    (d.jobs.length = env.MaxTreeJobs ∧ d1.writeQ = d.writeQ ++ [d.jobs] ∧ d1.jobs = [j]) := by
  unfold Dispatcher.AddJob at h
  split at h
  · rename_i hlt
    left
    split at h
    · split at h
      · simp at h
      · simp only [Option.some.injEq] at h
        subst h
        exact ⟨hlt, rfl, by simp [mergeExec_length]⟩
    · simp only [Option.some.injEq] at h
      subst h
      exact ⟨hlt, rfl, by simp⟩
  · rename_i hge
    right
    simp only [Dispatcher.EmptyJobs, List.nil_append, Option.some.injEq] at h
    subst h
    exact ⟨le_antisymm hinv.1 (Nat.le_of_not_lt hge), rfl, rfl⟩

theorem AddJob_BatchInv (env : Env) (hmax : 1 ≤ env.MaxTreeJobs) (d d1 : Dispatcher) (j : Job)
    (hinv : BatchInv env d) (h : d.AddJob env j = some d1) : BatchInv env d1 := by
  rcases AddJob_handoff env d d1 j hinv h with ⟨hlt, hq, hlen⟩ | ⟨heq, hq, hj⟩
  · refine ⟨by omega, ?_⟩
    rw [hq]
    exact hinv.2
  · refine ⟨by simp [hj, hmax], ?_⟩
    rw [hq]
    intro batch hb
    rcases List.mem_append.mp hb with hb1 | hb1
    · exact hinv.2 batch hb1
    · simp only [List.mem_singleton] at hb1
      rw [hb1, heq]

theorem addJobs_BatchInv (env : Env) (hmax : 1 ≤ env.MaxTreeJobs) (js : List Job) :
    ∀ (d d1 : Dispatcher), BatchInv env d → d.addJobs env js = some d1 → BatchInv env d1 := by
  induction js with
  | nil =>
    intro d d1 hinv h
    simp only [Dispatcher.addJobs, Option.some.injEq] at h
    subst h
    exact hinv
  | cons j js ih =>
    intro d d1 hinv h
    simp only [Dispatcher.addJobs] at h
    split at h
    · simp at h
    · rename_i d2 hstep
      exact ih d2 d1 (AddJob_BatchInv env hmax d d2 j hinv hstep) h

theorem AddJob_isSome (env : Env) (d : Dispatcher) (j : Job) (hj : j.Execs ≠ []) :
    ∃ d1, d.AddJob env j = some d1 := by
  unfold Dispatcher.AddJob
  split
  · split
    · have : ∃ e, j.GetLatestExec = some e := by
        unfold Job.GetLatestExec
        cases hl : j.Execs.getLast? with
        | none => exact absurd (List.getLast?_eq_none_iff.mp hl) hj
        | some e => exact ⟨e, rfl⟩
      obtain ⟨e, he⟩ := this
      rw [he]
      exact ⟨_, rfl⟩
    · exact ⟨_, rfl⟩
  · exact ⟨_, rfl⟩

theorem addJobs_isSome (env : Env) (js : List Job) (hjs : ∀ j ∈ js, j.Execs ≠ []) :
    ∀ d : Dispatcher, ∃ d1, d.addJobs env js = some d1 := by
  induction js with
  | nil => intro d; exact ⟨d, rfl⟩
  | cons j js ih =>
    intro d
    obtain ⟨d2, h2⟩ := AddJob_isSome env d j (hjs j (List.mem_cons_self _ _))
    obtain ⟨d1, h1⟩ := ih (fun x hx => hjs x (List.mem_cons_of_mem _ hx)) d2
    exact ⟨d1, by simp [Dispatcher.addJobs, h2, h1]⟩

/-! ## The re-broadcast set -/

theorem hexDigit_inj : ∀ i j : Fin 16, hexDigit i.val = hexDigit j.val → i = j := by decide

theorem hexChars_inj : ∀ a b : List Byte, hexChars a = hexChars b → a = b := by
  intro a
  induction a with
  | nil =>
    intro b h
    cases b with
    | nil => rfl
    | cons y ys => simp [hexChars] at h
  | cons x xs ih =>
    intro b h
    cases b with
    | nil => simp [hexChars] at h
    | cons y ys =>
      simp only [hexChars, List.cons.injEq] at h
      obtain ⟨h1, h2, h3⟩ := h
      have e1 := hexDigit_inj ⟨x.val / 16, by omega⟩ ⟨y.val / 16, by omega⟩ h1
      have e2 := hexDigit_inj ⟨x.val % 16, by omega⟩ ⟨y.val % 16, by omega⟩ h2
      have e1' : x.val / 16 = y.val / 16 := by simpa using congrArg Fin.val e1
      have e2' : x.val % 16 = y.val % 16 := by simpa using congrArg Fin.val e2
      have : x = y := by
        apply Fin.ext
        omega
      rw [this, ih ys h3]

theorem hexEncodeToString_inj (a b : List Byte) (h : hexEncodeToString a = hexEncodeToString b) :
    a = b := by
  unfold hexEncodeToString at h
  exact hexChars_inj a b (congrArg String.data h)

theorem mem_peerToRecv (d : Dispatcher) (sender : DispatcherInfo) (x : String) :
    x ∈ d.peerToRecv sender ↔
      ∃ q ∈ d.neighbors, rebroadcastCondition sender q.2 ∧ hexEncodeToString q.2.pub = x := by
  simp only [Dispatcher.peerToRecv, List.mem_map, List.mem_filter, rebroadcastCondition,
    ContainsString, Bool.and_eq_true, Bool.not_eq_true', decide_eq_false_iff_not,
    decide_eq_true_eq]
  constructor
  · rintro ⟨q, ⟨hq, hn, hp⟩, hx⟩
    exact ⟨q, hq, ⟨hp, hn⟩, hx⟩
  · rintro ⟨q, hq, ⟨hp, hn⟩, hx⟩
    exact ⟨q, ⟨hq, hn, hp⟩, hx⟩

theorem mem_blockRecipients (d : Dispatcher) (sender : DispatcherInfo) (p : Peer × DispatcherInfo) :
    p ∈ d.blockRecipients sender ↔
      p ∈ d.neighbors ∧ ∃ q ∈ d.neighbors, q.2.pub = p.2.pub ∧ rebroadcastCondition sender q.2 := by
  simp only [Dispatcher.blockRecipients, Dispatcher.multicastTargets, List.mem_filter,
    ContainsString, decide_eq_true_eq, mem_peerToRecv]
  constructor
  · rintro ⟨hp, q, hq, hc, hx⟩
    exact ⟨hp, q, hq, hexEncodeToString_inj _ _ hx, hc⟩
  · rintro ⟨hp, q, hq, hx, hc⟩
    exact ⟨hp, q, hq, hc, by rw [hx]⟩

theorem mem_blockRecipients_of_nodup (d : Dispatcher) (sender : DispatcherInfo)
    (hnd : (d.neighbors.map (fun p => p.2.pub)).Nodup) (p : Peer × DispatcherInfo) :
    p ∈ d.blockRecipients sender ↔ p ∈ d.neighbors ∧ rebroadcastCondition sender p.2 := by
  rw [mem_blockRecipients]
  constructor
  · rintro ⟨hp, q, hq, hx, hc⟩
    have : q = p := List.inj_on_of_nodup_map hnd hq hp hx
    rw [← this]
    exact ⟨hq, hc⟩
  · rintro ⟨hp, hc⟩
    exact ⟨hp, p, hp, rfl, hc⟩

theorem handleBlock_eq (env : Env) (d : Dispatcher) (s : Peer) (info : DispatcherInfo)
    (m : PeerMessage) (b : Block) (hreg : d.GetNeighbour s = some info)
    (hsig : env.VerifySignature m (hexEncodeToString info.pub) = true)
    (hb : env.DeserializeBlock m.Payload = some b) :
    d.handleBlock env s m = some { d with
      bc := d.bc ++ [b]
      sentPeers := d.sentPeers ++
        (d.blockRecipients info).map (fun p => (p.1, Sent.BlockMessage m.Payload)) } := by
  unfold Dispatcher.handleBlock
  rw [hreg]
  simp only [hsig, if_true, hb]
  rfl

/-! ## Gossip at steady state and on trees -/

theorem mapGet_map_conn (f : Nat → DispatcherInfo) (l : List Nat) (s : Nat) (h : s ∈ l) :
    mapGet (l.map (fun n => (Peer.conn n, f n))) (Peer.conn s) = some (f s) := by
  induction l with
  | nil => simp at h
  | cons x xs ih =>
    by_cases hx : x = s
    · simp [mapGet, hx]
    · have hs : s ∈ xs := by
        rcases List.mem_cons.mp h with h1 | h1
        · exact absurd h1.symm hx
        · exact h1
      simp [mapGet, hx, ih hs]

theorem steady_condition (net : Net) (hpk : Function.Injective net.pk) (s n : Nat) :
    rebroadcastCondition (net.info s) (net.info n) ↔ n ≠ s ∧ s ∉ net.nbrs n := by
  simp only [rebroadcastCondition, Net.info, List.mem_map, not_exists, not_and]
  constructor
  · rintro ⟨h1, h2⟩
    refine ⟨fun h => h1 (by rw [h]), fun h => h2 s h rfl⟩
  · rintro ⟨h1, h2⟩
    refine ⟨fun h => h1 (hpk h), fun k hk heq => ?_⟩
    have := hpk (hexEncodeToString_inj _ _ heq)
    rw [this] at hk
    exact h2 hk

theorem blockRecipients_steady (net : Net) (hpk : Function.Injective net.pk) (d : Dispatcher)
    (l : List Nat) (hd : d.neighbors = l.map (fun n => (Peer.conn n, net.info n))) (s : Nat) :
    d.blockRecipients (net.info s) =
      (l.filter (fun n => decide (n ≠ s) && decide (s ∉ net.nbrs n))).map
        (fun n => (Peer.conn n, net.info n)) := by
  unfold Dispatcher.blockRecipients Dispatcher.multicastTargets
  rw [hd, List.filter_map]
  congr 1
  apply List.filter_congr
  intro n hn
  simp only [Function.comp]
  rw [Bool.eq_iff_iff]
  simp only [ContainsString, decide_eq_true_eq, Bool.and_eq_true]
  rw [mem_peerToRecv]
  constructor
  · rintro ⟨q, hq, hc, hx⟩
    rw [hd] at hq
    simp only [List.mem_map] at hq
    obtain ⟨n1, _, rfl⟩ := hq
    have hn1 : n1 = n := hpk (hexEncodeToString_inj _ _ hx)
    subst hn1
    exact (steady_condition net hpk s n1).mp hc
  · intro hc
    refine ⟨(Peer.conn n, net.info n), ?_, (steady_condition net hpk s n).mpr hc, rfl⟩
    rw [hd]
    exact List.mem_map.mpr ⟨n, hn, rfl⟩

theorem forward_eq (env : Env) (net : Net) (m : PeerMessage) (b : Block) (u s : Nat)
    (hsig : ∀ pub, env.VerifySignature m pub = true)
    (hb : env.DeserializeBlock m.Payload = some b) (hpk : Function.Injective net.pk)
    (hs : s ∈ net.nbrs u) :
    net.forward env m u s =
      (net.nbrs u).filter (fun n => decide (n ≠ s) && decide (s ∉ net.nbrs n)) := by
  have hreg : (net.dispatcherOf u).GetNeighbour (Peer.conn s) = some (net.info s) :=
    mapGet_map_conn net.info (net.nbrs u) s hs
  unfold Net.forward
  rw [handleBlock_eq env _ _ _ m b hreg (hsig _) hb]
  rw [blockRecipients_steady net hpk (net.dispatcherOf u) (net.nbrs u) rfl s]
  simp only [Net.dispatcherOf, Dispatcher.init, List.nil_append, List.map_map]
  exact (List.map_congr_left (fun n _ => rfl)).trans (List.map_id _)

theorem mem_treeChildren (n : Nat) (parent : Nat → Nat) (u x : Nat) :
    x ∈ treeChildren n parent u ↔ x < n ∧ 1 ≤ x ∧ parent x = u := by
  simp [treeChildren, List.mem_filter, List.mem_range]

theorem treeChildren_nodup (n : Nat) (parent : Nat → Nat) (u : Nat) :
    (treeChildren n parent u).Nodup :=
  (List.nodup_range n).filter _

theorem tree_forward (env : Env) (pk : Nat → List Byte) (n : Nat) (parent : Nat → Nat)
    (m : PeerMessage) (b : Block) (hsig : ∀ pub, env.VerifySignature m pub = true)
    (hb : env.DeserializeBlock m.Payload = some b) (hpk : Function.Injective pk)
    (htree : ∀ c, 1 ≤ c → c < n → parent c < c) (u : Nat) (h1 : 1 ≤ u) (hu : u < n) :
    (treeNet pk n parent).forward env m u (parent u) = treeChildren n parent u := by
  have hn : (treeNet pk n parent).nbrs u = parent u :: treeChildren n parent u := by
    simp [treeNet, h1, hu]
  rw [forward_eq env (treeNet pk n parent) m b u (parent u) hsig hb hpk (by rw [hn]; simp), hn]
  rw [List.filter_cons_of_neg (by simp)]
  rw [List.filter_eq_self]
  intro x hx
  obtain ⟨hxn, hx1, hxp⟩ := (mem_treeChildren n parent u x).mp hx
  have hux : u < x := by
    have := htree x hx1 hxn
    omega
  have hpu : parent u < u := htree u h1 hu
  simp only [Bool.and_eq_true, decide_eq_true_eq]
  refine ⟨by omega, ?_⟩
  simp only [treeNet, hx1, hxn, and_self, if_true, List.singleton_append, List.mem_cons, not_or]
  refine ⟨by omega, ?_⟩
  intro hmem
  obtain ⟨_, hp1, hpp⟩ := (mem_treeChildren n parent x (parent u)).mp hmem
  have := htree (parent u) hp1 (by omega)
  omega

theorem tree_originate (pk : Nat → List Byte) (n : Nat) (parent : Nat → Nat) (m : PeerMessage) :
    (treeNet pk n parent).originate m 0 =
      { inflight := (treeChildren n parent 0).map (fun c => (0, c)), received := [] } := by
  simp only [Net.originate, Dispatcher.BroadcastNeighbours, Net.dispatcherOf, Dispatcher.init,
    List.nil_append, List.map_map, treeNet]
  congr 1

theorem pickAt_spec {α : Type} (l : List α) :
    ∀ (k : Nat) (x : α) (r : List α), pickAt l k = some (x, r) →
      ∃ l1 l2, l = l1 ++ x :: l2 ∧ r = l1 ++ l2 := by
  induction l with
  | nil => intro k x r h; simp [pickAt] at h
  | cons y ys ih =>
    intro k x r h
    cases k with
    | zero =>
      simp only [pickAt, Option.some.injEq, Prod.mk.injEq] at h
      exact ⟨[], ys, by simp [h.1], by simp [h.2]⟩
    | succ k =>
      simp only [pickAt, Option.map_eq_some'] at h
      obtain ⟨⟨x1, r1⟩, hp, heq⟩ := h
      simp only [Prod.mk.injEq] at heq
      obtain ⟨l1, l2, hl, hr⟩ := ih k x1 r1 hp
      exact ⟨y :: l1, l2, by simp [hl, ← heq.1], by simp [hr, ← heq.2]⟩

theorem pickAt_isSome {α : Type} (l : List α) :
    ∀ k, k < l.length → ∃ x r, pickAt l k = some (x, r) := by
  induction l with
  | nil => intro k h; simp at h
  | cons y ys ih =>
    intro k h
    cases k with
    | zero => exact ⟨y, ys, rfl⟩
    | succ k =>
      obtain ⟨x, r, hp⟩ := ih k (by simpa using h)
      exact ⟨x, y :: r, by simp [pickAt, hp]⟩

theorem gossip_idle (env : Env) (net : Net) (m : PeerMessage) (ks : List Nat) :
    ∀ g : Gossip, g.inflight = [] → net.gossip env m g ks = g := by
  induction ks with
  | nil => intro g _; rfl
  | cons k ks ih =>
    intro g hg
    have hd : net.deliver env m g (k % g.inflight.length) = g := by
      simp [Net.deliver, hg, pickAt]
    simp only [Net.gossip, hd]
    exact ih g hg

theorem tree_deliver (env : Env) (pk : Nat → List Byte) (n : Nat) (parent : Nat → Nat)
    (m : PeerMessage) (b : Block) (hsig : ∀ pub, env.VerifySignature m pub = true)
    (hb : env.DeserializeBlock m.Payload = some b) (hpk : Function.Injective pk)
    (htree : ∀ c, 1 ≤ c → c < n → parent c < c) (g : Gossip)
    (hinv : TreeGossipInv n parent g) (k : Nat) (hk : k < g.inflight.length) :
    TreeGossipInv n parent ((treeNet pk n parent).deliver env m g k) ∧
      ((treeNet pk n parent).deliver env m g k).received.length = g.received.length + 1 := by
  obtain ⟨ha, hnd, hc, hd, he⟩ := hinv
  obtain ⟨⟨s, u⟩, rest, hpick⟩ := pickAt_isSome g.inflight k hk
  obtain ⟨l1, l2, hl, hr⟩ := pickAt_spec g.inflight k (s, u) rest hpick
  have hmem : (s, u) ∈ g.inflight := by rw [hl]; simp
  obtain ⟨hu1, hun, hs⟩ := ha (s, u) hmem
  simp only at hu1 hun hs
  have hfw := tree_forward env pk n parent m b hsig hb hpk htree u hu1 hun
  have hdel : (treeNet pk n parent).deliver env m g k =
      { inflight := (l1 ++ l2) ++ (treeChildren n parent u).map (fun c => (u, c))
        received := g.received ++ [u] } := by
    simp only [Net.deliver, hpick, hs, hfw, hr]
  rw [hdel]
  have hold : g.received ++ g.inflight.map (fun p => p.2) =
      g.received ++ (l1.map (fun p => p.2) ++ u :: l2.map (fun p => p.2)) := by
    rw [hl]; simp
  have hnew : (g.received ++ [u]) ++
      ((l1 ++ l2) ++ (treeChildren n parent u).map (fun c => (u, c))).map (fun p => p.2) =
      (g.received ++ [u]) ++ ((l1.map (fun p => p.2) ++ l2.map (fun p => p.2)) ++
        treeChildren n parent u) := by
    simp [List.map_append, List.map_map, Function.comp]
  have hperm : List.Perm ((g.received ++ [u]) ++ ((l1.map (fun p => p.2) ++ l2.map (fun p => p.2)) ++
        treeChildren n parent u))
      ((g.received ++ g.inflight.map (fun p => p.2)) ++ treeChildren n parent u) := by
    rw [hold, List.perm_iff_count]
    intro a
    simp only [List.count_append, List.count_cons, List.count_nil]
    omega
  have huR : u ∉ g.received := by
    rw [hold] at hnd
    have := (List.nodup_append.mp hnd).2.2
    intro hin
    exact this hin (by simp)
  have hdisj : List.Disjoint (g.received ++ g.inflight.map (fun p => p.2))
      (treeChildren n parent u) := by
    intro c hc1 hc2
    obtain ⟨_, _, hcp⟩ := (mem_treeChildren n parent u c).mp hc2
    rcases he c hc1 with h0 | hR
    · omega
    · rw [hcp] at hR
      exact huR hR
  refine ⟨⟨?_, ?_, ?_, ?_, ?_⟩, by simp⟩
  · intro p hp
    simp only [List.mem_append, List.mem_map] at hp
    rcases hp with (hp | hp) | ⟨c, hcm, rfl⟩
    · exact ha p (by rw [hl]; simp [hp])
    · exact ha p (by rw [hl]; simp [hp])
    · obtain ⟨hcn, hc1, hcp⟩ := (mem_treeChildren n parent u c).mp hcm
      exact ⟨hc1, hcn, hcp.symm⟩
  · show ((g.received ++ [u]) ++
      ((l1 ++ l2) ++ (treeChildren n parent u).map (fun c => (u, c))).map (fun p => p.2)).Nodup
    rw [hnew, hperm.nodup_iff]
    exact List.nodup_append.mpr ⟨hnd, treeChildren_nodup n parent u, hdisj⟩
  · intro x hx
    simp only [List.mem_append, List.mem_singleton] at hx
    rcases hx with hx | hx
    · exact hc x hx
    · rw [hx]; exact ⟨hu1, hun⟩
  · intro c hc1 hcn hpar
    show c ∈ (g.received ++ [u]) ++
      ((l1 ++ l2) ++ (treeChildren n parent u).map (fun c => (u, c))).map (fun p => p.2)
    rw [hnew, hperm.mem_iff, List.mem_append]
    simp only [List.mem_append, List.mem_singleton] at hpar
    rcases hpar with h0 | hR | hU
    · exact Or.inl (hd c hc1 hcn (Or.inl h0))
    · exact Or.inl (hd c hc1 hcn (Or.inr hR))
    · exact Or.inr ((mem_treeChildren n parent u c).mpr ⟨hcn, hc1, hU⟩)
  · intro c hcm
    have hcm1 : c ∈ (g.received ++ [u]) ++
      ((l1 ++ l2) ++ (treeChildren n parent u).map (fun c => (u, c))).map (fun p => p.2) := hcm
    rw [hnew, hperm.mem_iff, List.mem_append] at hcm1
    rcases hcm1 with hold1 | hch
    · rcases he c hold1 with h0 | hR
      · exact Or.inl h0
      · exact Or.inr (List.mem_append.mpr (Or.inl hR))
    · obtain ⟨_, _, hcp⟩ := (mem_treeChildren n parent u c).mp hch
      exact Or.inr (by simp [hcp])

theorem tree_bound (n : Nat) (parent : Nat → Nat) (g : Gossip)
    (hinv : TreeGossipInv n parent g) : g.received.length + g.inflight.length ≤ n - 1 := by
  obtain ⟨ha, hnd, hc, _, _⟩ := hinv
  have hsub : g.received ++ g.inflight.map (fun p => p.2) ⊆ List.Ico 1 n := by
    intro x hx
    rw [List.Ico.mem]
    rcases List.mem_append.mp hx with h | h
    · exact hc x h
    · obtain ⟨p, hp, rfl⟩ := List.mem_map.mp h
      exact ⟨(ha p hp).1, (ha p hp).2.1⟩
  have := (hnd.subperm hsub).length_le
  simpa using this

theorem tree_gossip_run (env : Env) (pk : Nat → List Byte) (n : Nat) (parent : Nat → Nat)
    (m : PeerMessage) (b : Block) (hsig : ∀ pub, env.VerifySignature m pub = true)
    (hb : env.DeserializeBlock m.Payload = some b) (hpk : Function.Injective pk)
    (htree : ∀ c, 1 ≤ c → c < n → parent c < c) (ks : List Nat) :
    ∀ g : Gossip, TreeGossipInv n parent g → n - 1 ≤ g.received.length + ks.length →
      TreeGossipInv n parent ((treeNet pk n parent).gossip env m g ks) ∧
        ((treeNet pk n parent).gossip env m g ks).inflight = [] := by
  induction ks with
  | nil =>
    intro g hinv hlen
    have := tree_bound n parent g hinv
    refine ⟨hinv, ?_⟩
    simp only [List.length_nil, Nat.add_zero] at hlen
    show g.inflight = []
    exact List.length_eq_zero.mp (by omega)
  | cons k ks ih =>
    intro g hinv hlen
    by_cases hg : g.inflight = []
    · rw [gossip_idle env _ m (k :: ks) g hg]
      exact ⟨hinv, hg⟩
    · have hpos : 0 < g.inflight.length := List.length_pos.mpr hg
      obtain ⟨hinv1, hlen1⟩ := tree_deliver env pk n parent m b hsig hb hpk htree g hinv
        (k % g.inflight.length) (Nat.mod_lt _ hpos)
      simp only [Net.gossip]
      apply ih _ hinv1
      simp only [List.length_cons] at hlen
      omega

theorem tree_all_received (n : Nat) (parent : Nat → Nat)
    (htree : ∀ c, 1 ≤ c → c < n → parent c < c) (g : Gossip)
    (hinv : TreeGossipInv n parent g) (hdone : g.inflight = []) :
    ∀ c, 1 ≤ c → c < n → c ∈ g.received := by
  obtain ⟨_, _, _, hd, _⟩ := hinv
  intro c
  induction c using Nat.strong_induction_on with
  | _ c ih =>
    intro hc1 hcn
    have hp := htree c hc1 hcn
    have hpar : parent c = 0 ∨ parent c ∈ g.received := by
      by_cases h0 : parent c = 0
      · exact Or.inl h0
      · exact Or.inr (ih (parent c) hp (by omega) (by omega))
    have := hd c hc1 hcn hpar
    simpa [hdone] using this

/-! ## Gossip on trees: flooding away from the origin -/

/-- On a tree the gossip floods away from the origin: let the peer graph be a
tree on the nodes `0, ..., n - 1`, numbered from the origin 0 so that the
parent of every other node has a smaller number, with pairwise distinct public
keys, valid signatures and a block that deserialises. Then under every
delivery order, after `n - 1` deliveries or more no message is under way,
every node other than the origin has received the block once and the origin
has not received it. (The test on the known neighbours excludes no child
there, see `tree_forward`.) -/
theorem gossip_tree_exactly_once (env : Env) (pk : Nat → List Byte) (n : Nat)
    (parent : Nat → Nat) (m : PeerMessage) (b : Block)
    (hsig : ∀ pub, env.VerifySignature m pub = true)
    (hb : env.DeserializeBlock m.Payload = some b) (hpk : Function.Injective pk)
    (htree : ∀ c, 1 ≤ c → c < n → parent c < c) (order : List Nat)
    (horder : n - 1 ≤ order.length) :
    ((treeNet pk n parent).gossip env m ((treeNet pk n parent).originate m 0) order).inflight = [] ∧
    (∀ u, 1 ≤ u → u < n →
      ((treeNet pk n parent).gossip env m ((treeNet pk n parent).originate m 0) order).received.count u
        = 1) ∧
    ((treeNet pk n parent).gossip env m ((treeNet pk n parent).originate m 0) order).received.count 0
      = 0 := by
  have hinit : TreeGossipInv n parent ((treeNet pk n parent).originate m 0) := by
    rw [tree_originate]
    refine ⟨?_, ?_, ?_, ?_, ?_⟩
    · intro p hp
      obtain ⟨c, hc, rfl⟩ := List.mem_map.mp hp
      obtain ⟨hcn, hc1, hcp⟩ := (mem_treeChildren n parent 0 c).mp hc
      exact ⟨hc1, hcn, hcp.symm⟩
    · simp only [List.nil_append, List.map_map]
      have : ((fun p : Nat × Nat => p.2) ∘ fun c => (0, c)) = id := rfl
      rw [this, List.map_id]
      exact treeChildren_nodup n parent 0
    · intro x hx; simp at hx
    · intro c hc1 hcn hpar
      simp only [List.not_mem_nil, or_false] at hpar
      simp only [List.nil_append, List.map_map, List.mem_map, Function.comp]
      exact ⟨c, (mem_treeChildren n parent 0 c).mpr ⟨hcn, hc1, hpar⟩, rfl⟩
    · intro c hc
      simp only [List.nil_append, List.map_map, List.mem_map, Function.comp] at hc
      obtain ⟨c1, hc1, rfl⟩ := hc
      exact Or.inl ((mem_treeChildren n parent 0 c1).mp hc1).2.2
  obtain ⟨hinv, hdone⟩ := tree_gossip_run env pk n parent m b hsig hb hpk htree order _ hinit
    (by simp [tree_originate]; omega)
  refine ⟨hdone, ?_, ?_⟩
  · intro u hu1 hun
    have hmem := tree_all_received n parent htree _ hinv hdone u hu1 hun
    have hnd := (List.nodup_append.mp hinv.2.1).1
    exact List.count_eq_one_of_mem hnd hmem
  · apply List.count_eq_zero_of_not_mem
    intro h0
    have := (hinv.2.2.1 0 h0).1
    omega

/-- The line 0 – 1 – 2 of the spec's scenario 5: after two deliveries nothing
is under way and the nodes 1 and 2 received the block once each. -/
theorem gossip_tree_exactly_once_witness :
    lineNet.gossip scenarioEnv blockMsg (lineNet.originate blockMsg 0) [0, 0] =
      { inflight := [], received := [1, 2] } ∧
    (lineNet.gossip scenarioEnv blockMsg (lineNet.originate blockMsg 0) [0, 0]).inflight = [] ∧
    (∀ u, 1 ≤ u → u < 3 →
      (lineNet.gossip scenarioEnv blockMsg (lineNet.originate blockMsg 0) [0, 0]).received.count u
        = 1) ∧
    (lineNet.gossip scenarioEnv blockMsg (lineNet.originate blockMsg 0) [0, 0]).received.count 0
      = 0 :=
  ⟨by decide,
    gossip_tree_exactly_once scenarioEnv (fun i => List.replicate i 0) 3 (fun c => c - 1)
      blockMsg [5] (fun _ => rfl) rfl
      (fun a b h => by simpa using congrArg List.length h)
      (fun c h1 _ => by show c - 1 < c; omega) [0, 0] (by decide)⟩

/-! ## Gossip on the ring -/

theorem ring_forward_one :
    ∀ p ∈ ringEdges, (ringNet.forward scenarioEnv blockMsg p.2 p.1).length = 1 ∧
      ∀ t ∈ ringNet.forward scenarioEnv blockMsg p.2 p.1, (p.2, t) ∈ ringEdges := by
  decide

theorem ring_forward (p : Nat × Nat) (hp : p ∈ ringEdges) :
    ∃ t, ringNet.forward scenarioEnv blockMsg p.2 p.1 = [t] ∧ (p.2, t) ∈ ringEdges := by
  obtain ⟨hlen, hall⟩ := ring_forward_one p hp
  obtain ⟨t, ht⟩ := List.length_eq_one.mp hlen
  exact ⟨t, ht, hall t (by rw [ht]; simp)⟩

theorem ring_deliver (g : Gossip) (hinv : RingGossipInv g) (k : Nat)
    (hk : k < g.inflight.length) :
    RingGossipInv (ringNet.deliver scenarioEnv blockMsg g k) ∧
      (ringNet.deliver scenarioEnv blockMsg g k).received.length = g.received.length + 1 := by
  obtain ⟨hlen, hedge⟩ := hinv
  obtain ⟨⟨s, u⟩, rest, hpick⟩ := pickAt_isSome g.inflight k hk
  obtain ⟨l1, l2, hl, hr⟩ := pickAt_spec g.inflight k (s, u) rest hpick
  have hmem : (s, u) ∈ g.inflight := by rw [hl]; simp
  obtain ⟨t, hfw, ht⟩ := ring_forward (s, u) (hedge (s, u) hmem)
  simp only at hfw ht
  have hdel : ringNet.deliver scenarioEnv blockMsg g k =
      { inflight := (l1 ++ l2) ++ [(u, t)], received := g.received ++ [u] } := by
    simp only [Net.deliver, hpick, hfw, hr, List.map_cons, List.map_nil]
  rw [hdel]
  refine ⟨⟨?_, ?_⟩, by simp⟩
  · rw [hl] at hlen
    simp only [List.length_append, List.length_cons, List.length_nil] at hlen ⊢
    omega
  · intro p hp
    simp only [List.mem_append, List.mem_singleton] at hp
    rcases hp with (hp | hp) | hp
    · exact hedge p (by rw [hl]; simp [hp])
    · exact hedge p (by rw [hl]; simp [hp])
    · rw [hp]; exact ht

theorem ring_gossip_run (order : List Nat) :
    ∀ g : Gossip, RingGossipInv g →
      RingGossipInv (ringNet.gossip scenarioEnv blockMsg g order) ∧
        (ringNet.gossip scenarioEnv blockMsg g order).received.length =
          g.received.length + order.length := by
  induction order with
  | nil => intro g hinv; exact ⟨hinv, rfl⟩
  | cons k ks ih =>
    intro g hinv
    have hpos : 0 < g.inflight.length := by rw [hinv.1]; decide
    obtain ⟨hinv1, hlen1⟩ := ring_deliver g hinv (k % g.inflight.length) (Nat.mod_lt _ hpos)
    obtain ⟨hinv2, hlen2⟩ := ih _ hinv1
    simp only [Net.gossip]
    refine ⟨hinv2, ?_⟩
    rw [hlen2, hlen1, List.length_cons]
    omega

/-! ## The claims -/

/-- C1 (no double-dispatch), evaluated on the code: after worker 1 took job
`j1` and disconnected, the job is queued again and goes to worker 2, while the
registry entry of session 1 still holds it; the same happens when session 1,
already shut, returns a RESULT whose signature does not verify. In both runs
two registry entries hold `j1` as their assigned job. -/
theorem stale_assignment_double_dispatch :
    (∃ d, Dispatcher.run scenarioEnv [9] Dispatcher.init
        [Event.message 1 (helloOf [0xAA]), Event.submit itemJ1 MEDIUM, Event.deploy,
          Event.disconnect 1, Event.message 2 (helloOf [0xBB]), Event.deploy] = some d ∧
      d.holders "j1" = [1, 2]) ∧
    (∃ d, Dispatcher.run scenarioEnv [9] Dispatcher.init
        [Event.message 1 (helloOf [0xAA]), Event.submit itemJ1 MEDIUM, Event.deploy,
          Event.message 1 shutMsg, Event.message 1 badResult,
          Event.message 2 (helloOf [0xBB]), Event.deploy] = some d ∧
      d.holders "j1" = [1, 2]) := by
  constructor
  · refine ⟨_, rfl, ?_⟩
    decide
  · refine ⟨_, rfl, ?_⟩
    decide

/-- C2 (single assignment), evaluated on the code: after a RESULT whose
signature does not verify, session 1 still has its assigned job and is back in
the worker queue. -/
theorem invalid_result_requeues_assigned_worker :
    ∃ d, Dispatcher.run scenarioEnv [9] Dispatcher.init
        [Event.message 1 (helloOf [0xAA]), Event.submit itemJ1 MEDIUM, Event.deploy,
          Event.message 1 badResult] = some d ∧
      (d.GetWorker 1).map (fun w => w.job.isSome) = some true ∧
      d.queuedWorkers = [1] := by
  refine ⟨_, rfl, ?_, ?_⟩ <;> decide

/-- C3 (cancellation short-circuit), evaluated on the code: with the idle
worker 1 queued and a cancelled job queued, one scheduler iteration delivers
the job on its result channel and sends no JOB message, but the worker, still
registered, idle and not shut, is no longer in the worker queue. -/
theorem cancelled_job_drops_worker :
    ∃ d, Dispatcher.run scenarioEnv [9] Dispatcher.init
        [Event.message 1 (helloOf [0xAA]), Event.submit cancelledJ1 MEDIUM] = some d ∧
      d.queuedWorkers = [1] ∧ d.GetWorker 1 = some (NewWorkerInfo "aa") ∧
      d.jobPQ = [(cancelledJ1, MEDIUM)] ∧
      ∃ d1, d.deployJobs = some d1 ∧
        d1.results = [cancelledJ1] ∧ d1.jobsSent = [] ∧
        d1.queuedWorkers = [] ∧ d1.GetWorker 1 = some (NewWorkerInfo "aa") := by
  refine ⟨_, rfl, by decide, by decide, by decide, _, rfl, by decide, by decide, by decide,
    by decide⟩

/-- C4 (mid-flight disconnect): when session `s` is registered, its disconnect
handler returns, sets the shut flag of `s` and leaves the rest of its entry;
it pushes the assigned job, if any, once onto the job queue at priority HIGH
and leaves the job queue as it is otherwise; the worker queue, the entries of
all other sessions and the registered sessions stay the same. -/
theorem wHandleDisconnect_requeues_once (d : Dispatcher) (s : Session) (wi : WorkerInfo)
    (hreg : d.GetWorker s = some wi) :
    ∃ d1, d.wHandleDisconnect s = some d1 ∧
      d1.GetWorker s = some { wi with shut := true } ∧
      (∀ j, wi.job = some j → d1.jobPQ = d.jobPQ ++ [(j, HIGH)]) ∧
      (wi.job = none → d1.jobPQ = d.jobPQ) ∧
      d1.workerPQ = d.workerPQ ∧
      (∀ s1, s1 ≠ s → d1.GetWorker s1 = d.GetWorker s1) ∧
      d1.workers.map (fun p => p.1) = d.workers.map (fun p => p.1) := by
  unfold Dispatcher.wHandleDisconnect
  rw [hreg]
  refine ⟨_, rfl, ?_, ?_, ?_, ?_, ?_, ?_⟩
  · cases wi.job <;> exact mapGet_mapSet_self _ _ _
  · intro j hj
    rw [hj]
    rfl
  · intro hj
    rw [hj]
    rfl
  · cases wi.job <;> rfl
  · intro s1 hne
    cases wi.job <;> exact mapGet_mapSet_of_ne _ _ _ _ hne
  · cases wi.job <;> exact mapSet_keys_of_get _ s wi _ hreg

/-- C4 at the busy worker of session 1: job `j1` is queued once at HIGH. -/
theorem wHandleDisconnect_requeues_once_witness :
    busyWorker.GetWorker 1 = some { pub := "aa", job := some itemJ1, shut := false } ∧
    ∃ d1, busyWorker.wHandleDisconnect 1 = some d1 ∧
      d1.GetWorker 1 = some { pub := "aa", job := some itemJ1, shut := true } ∧
      d1.jobPQ = busyWorker.jobPQ ++ [(itemJ1, HIGH)] ∧
      d1.workerPQ = busyWorker.workerPQ :=
  ⟨by decide,
    match wHandleDisconnect_requeues_once busyWorker 1
        { pub := "aa", job := some itemJ1, shut := false } (by decide) with
    | ⟨d1, h1, h2, h3, _, h5, _⟩ => ⟨d1, h1, h2, h3 itemJ1 rfl, h5⟩⟩

/-- C5 (worker cap): in every state reached from the empty dispatcher by
client submissions, worker messages, disconnects and scheduler iterations the
registry holds at most `MaxWorkers` entries; a HELLO that arrives while it
holds `MaxWorkers` entries is answered with CONNFULL and changes neither the
registry nor the worker queue; with `MaxWorkers = 2`, three HELLOs in sequence
get the replies HELLO, HELLO, CONNFULL and leave two entries. -/
theorem worker_cap :
    (∀ (env : Env) (pub : List Byte) (es : List Event) (d : Dispatcher),
        Dispatcher.run env pub Dispatcher.init es = some d → d.workers.length ≤ env.MaxWorkers) ∧
    (∀ (env : Env) (pub : List Byte) (d : Dispatcher) (s : Session) (m : PeerMessage),
        m.Message = Kind.HELLO → d.workers.length = env.MaxWorkers →
        ∃ d1, d.wHandleMessage env pub s m = some d1 ∧
          d1.sent = d.sent ++ [(s, Sent.ConnFullMessage)] ∧
          d1.workers = d.workers ∧ d1.workerPQ = d.workerPQ) ∧
    (scenarioEnv.MaxWorkers = 2 ∧
      ∃ d, Dispatcher.run scenarioEnv [9] Dispatcher.init
        [Event.message 1 (helloOf [0xAA]), Event.message 2 (helloOf [0xAB]),
          Event.message 3 (helloOf [0xAC])] = some d ∧
      d.sent = [(1, Sent.HelloMessage [9]), (2, Sent.HelloMessage [9]), (3, Sent.ConnFullMessage)] ∧
      d.workers.length = 2) := by
  refine ⟨?_, ?_, rfl, ?_⟩
  · intro env pub es d h
    exact run_workers_length env pub es Dispatcher.init d h (Nat.zero_le _)
  · intro env pub d s m hm hfull
    unfold Dispatcher.wHandleMessage
    rw [hm]
    simp [hfull]
  · exact ⟨_, rfl, by decide, by decide⟩

/-- C5 at a registry of two workers with `MaxWorkers = 2`: the third HELLO is
answered with CONNFULL and nothing else changes. -/
theorem worker_cap_witness :
    fullRegistry.workers.length = scenarioEnv.MaxWorkers ∧
    ∃ d1, fullRegistry.wHandleMessage scenarioEnv [9] 3 (helloOf [0xAC]) = some d1 ∧
      d1.sent = fullRegistry.sent ++ [(3, Sent.ConnFullMessage)] ∧
      d1.workers = fullRegistry.workers ∧ d1.workerPQ = fullRegistry.workerPQ :=
  ⟨by decide, worker_cap.2.1 scenarioEnv [9] fullRegistry 3 (helloOf [0xAC]) rfl (by decide)⟩

/-- C6 as stated fails when the buffer is full: with `MaxTreeJobs = 3` and a
buffer of three jobs, one of id `a`, adding a job of id `a` hands the buffer
to the write-queue and starts a new buffer with that job; nothing is merged. -/
theorem AddJob_full_buffer_no_merge :
    fullBuffer.jobs.length ≤ scenarioEnv.MaxTreeJobs ∧
    (jobOf "a" 1 ∈ fullBuffer.jobs ∧ (jobOf "a" 1).ID = (jobOf "a" 4).ID) ∧
    fullBuffer.AddJob scenarioEnv (jobOf "a" 4) =
      some { Dispatcher.init with
        writeQ := [[jobOf "a" 1, jobOf "b" 2, jobOf "c" 3]], jobs := [jobOf "a" 4] } := by
  decide

/-- C6, amended (in-place merge below capacity): when the buffer holds fewer
than `MaxTreeJobs` jobs and one of them has the id of `j`, `AddJob` returns
and appends the latest execution of `j` to the first entry of that id; the
buffer keeps its other entries, their order and its length, and every other
field of the dispatcher, the write-queue included, stays the same. -/
theorem AddJob_merge_in_place (env : Env) (d : Dispatcher) (j : Job) (e : JobExec)
    (hlen : d.jobs.length < env.MaxTreeJobs) (hid : ∃ val ∈ d.jobs, val.ID = j.ID)
    (hlatest : j.GetLatestExec = some e) :
    ∃ pre val post, d.jobs = pre ++ val :: post ∧ val.ID = j.ID ∧ (∀ x ∈ pre, x.ID ≠ j.ID) ∧
      d.AddJob env j = some { d with jobs := pre ++ val.AddExec e :: post } := by
  obtain ⟨pre, val, post, hjs, hv, hpre, hm⟩ := mergeExec_spec j e d.jobs hid
  obtain ⟨v, hfind⟩ := find_isSome_of_id j d.jobs hid
  refine ⟨pre, val, post, hjs, hv, hpre, ?_⟩
  unfold Dispatcher.AddJob
  rw [if_pos hlen, hfind]
  simp only [hlatest, hm]

/-- C6, amended, at the buffer `[a, b]` with `MaxTreeJobs = 3`: a second
result of `a` is merged into the entry of `a`. -/
theorem AddJob_merge_in_place_witness :
    twoBuffered.jobs.length < scenarioEnv.MaxTreeJobs ∧
    (jobOf "a" 3).GetLatestExec = some (doneExec 3) ∧
    ∃ pre val post, twoBuffered.jobs = pre ++ val :: post ∧ val.ID = (jobOf "a" 3).ID ∧
      (∀ x ∈ pre, x.ID ≠ (jobOf "a" 3).ID) ∧
      twoBuffered.AddJob scenarioEnv (jobOf "a" 3) =
        some { twoBuffered with jobs := pre ++ val.AddExec (doneExec 3) :: post } :=
  ⟨by decide, rfl,
    AddJob_merge_in_place scenarioEnv twoBuffered (jobOf "a" 3) (doneExec 3) (by decide)
      ⟨jobOf "a" 1, by decide, rfl⟩ rfl⟩

/-- C7 as stated fails: after the results of `a`, of `b` and again of `a`, the
last result of `b` (call 1) precedes the last result of `a` (call 2), yet the
buffer is `[a, b]`: `b` is not positioned before `a`. -/
theorem commit_order_not_by_last_result :
    Dispatcher.init.addJobs scenarioEnv [jobOf "a" 1, jobOf "b" 2, jobOf "a" 3] =
      some mergedBuffer ∧
    mergedBuffer.writeQ = [] ∧ jobIDs mergedBuffer.jobs = ["a", "b"] ∧
    lastCall ["a", "b", "a"] "b" < lastCall ["a", "b", "a"] "a" ∧
    ¬ (List.indexOf "b" (jobIDs mergedBuffer.jobs) < List.indexOf "a" (jobIDs mergedBuffer.jobs)) := by
  decide

/-- C7, amended (commit ordering by first result): after any sequence of
`AddJob` calls from the empty pipeline, the calls split into consecutive
segments, one for each queued batch in queue order and a last one for the
buffer, such that every batch and the buffer list the job ids of their segment
in the order of first occurrence: a job stands where its first result of the
segment put it, and later results of the segment do not move it. -/
theorem commit_order_by_first_result (env : Env) (calls : List Job) (d : Dispatcher)
    (h : Dispatcher.init.addJobs env calls = some d) :
    ∃ segs : List (List Job), segs.flatten = calls ∧
      (d.writeQ ++ [d.jobs]).map jobIDs = segs.map (fun seg => firstOccurrences (jobIDs seg)) := by
  have hinit : CommitInv Dispatcher.init [] := ⟨[], [], rfl, rfl, rfl⟩
  obtain ⟨segs, cur, hcalls, hq, hbuf⟩ := addJobs_CommitInv env calls _ _ _ hinit h
  refine ⟨segs ++ [cur], ?_, ?_⟩
  · simp at hcalls
    simp [hcalls]
  · simp [hq, hbuf]

/-- C7, amended, at the calls `a, b, a` with `MaxTreeJobs = 3`. -/
theorem commit_order_by_first_result_witness :
    Dispatcher.init.addJobs scenarioEnv [jobOf "a" 1, jobOf "b" 2, jobOf "a" 3] =
      some mergedBuffer ∧
    ∃ segs : List (List Job), segs.flatten = [jobOf "a" 1, jobOf "b" 2, jobOf "a" 3] ∧
      (mergedBuffer.writeQ ++ [mergedBuffer.jobs]).map jobIDs =
        segs.map (fun seg => firstOccurrences (jobIDs seg)) :=
  ⟨by decide,
    commit_order_by_first_result scenarioEnv [jobOf "a" 1, jobOf "b" 2, jobOf "a" 3]
      mergedBuffer (by decide)⟩

/-- C8 (batch bound): for `MaxTreeJobs ≥ 1` and every sequence of `AddJob`
calls from the empty pipeline, the buffer holds at most `MaxTreeJobs` jobs and
every queued batch exactly `MaxTreeJobs`; a further call either finds the
buffer below capacity and leaves the write-queue as it is, or finds it full,
hands it over and starts the buffer anew with the arriving job; the calls all
return when every job has an execution. With `MaxTreeJobs = 3`, four jobs of
distinct ids give one batch of the first three and the fourth in the buffer. -/
theorem batch_bound :
    (∀ env : Env, 1 ≤ env.MaxTreeJobs →
      (∀ (calls : List Job) (d : Dispatcher), Dispatcher.init.addJobs env calls = some d →
        d.jobs.length ≤ env.MaxTreeJobs ∧ ∀ batch ∈ d.writeQ, batch.length = env.MaxTreeJobs) ∧
      (∀ (calls : List Job) (d d1 : Dispatcher) (j : Job),
        Dispatcher.init.addJobs env calls = some d → d.AddJob env j = some d1 →
        (d.jobs.length < env.MaxTreeJobs ∧ d1.writeQ = d.writeQ) ∨
        (d.jobs.length = env.MaxTreeJobs ∧ d1.writeQ = d.writeQ ++ [d.jobs] ∧ d1.jobs = [j])) ∧
      (∀ calls : List Job, (∀ j ∈ calls, j.Execs ≠ []) →
        ∃ d, Dispatcher.init.addJobs env calls = some d)) ∧
    (scenarioEnv.MaxTreeJobs = 3 ∧
      Dispatcher.init.addJobs scenarioEnv [jobOf "a" 1, jobOf "b" 2, jobOf "c" 3, jobOf "d" 4] =
        some { Dispatcher.init with
          writeQ := [[jobOf "a" 1, jobOf "b" 2, jobOf "c" 3]], jobs := [jobOf "d" 4] }) := by
  have hinit : ∀ env : Env, BatchInv env Dispatcher.init := fun env =>
    ⟨Nat.zero_le _, by simp [Dispatcher.init]⟩
  refine ⟨fun env hmax => ⟨?_, ?_, ?_⟩, rfl, by decide⟩
  · intro calls d h
    exact addJobs_BatchInv env hmax calls _ _ (hinit env) h
  · intro calls d d1 j h hadd
    have hinv := addJobs_BatchInv env hmax calls _ _ (hinit env) h
    rcases AddJob_handoff env d d1 j hinv hadd with ⟨hlt, hq, _⟩ | hfull
    · exact Or.inl ⟨hlt, hq⟩
    · exact Or.inr hfull
  · intro calls hcalls
    exact addJobs_isSome env calls hcalls Dispatcher.init

/-- C8 at four results of distinct jobs with `MaxTreeJobs = 3`. -/
theorem batch_bound_witness :
    1 ≤ scenarioEnv.MaxTreeJobs ∧
    Dispatcher.init.addJobs scenarioEnv [jobOf "a" 1, jobOf "b" 2, jobOf "c" 3, jobOf "d" 4] =
      some afterFour ∧
    afterFour.jobs.length ≤ scenarioEnv.MaxTreeJobs ∧
    ∀ batch ∈ afterFour.writeQ, batch.length = scenarioEnv.MaxTreeJobs :=
  ⟨by decide, by decide,
    (batch_bound.1 scenarioEnv (by decide)).1
      [jobOf "a" 1, jobOf "b" 2, jobOf "c" 3, jobOf "d" 4] afterFour (by decide)⟩

/-- C9 as stated fails when two registry entries carry the same public key:
the peer of key `01` is connected twice and only its dialed connection lists
the sender `02` as a known neighbour; the block of the sender is re-sent to
both connections, the dialed one included. -/
theorem rebroadcast_reaches_duplicate_pubkey :
    twiceConnected.GetNeighbour (Peer.session 3) = some { pub := [2], neighbours := [] } ∧
    scenarioEnv.VerifySignature blockMsg (hexEncodeToString [2]) = true ∧
    (Peer.conn 2, { pub := [1], neighbours := ["02"] }) ∈ twiceConnected.neighbors ∧
    hexEncodeToString [2] ∈ ["02"] ∧
    (twiceConnected.handleBlock scenarioEnv (Peer.session 3) blockMsg).map (fun d => d.sentPeers) =
      some [(Peer.session 1, Sent.BlockMessage [5]), (Peer.conn 2, Sent.BlockMessage [5])] := by
  decide

/-- C9, amended (re-broadcast set): for a BLOCK of a registered sender whose
signature verifies and whose payload deserialises, the handler returns and
writes the block to exactly the registry entries whose public key is that of
an entry `q` with `q.pub ≠ sender.pub` and `sender.pub ∉ q.neighbours`; when
the public keys of the registry are pairwise distinct these are exactly the
entries that meet the condition themselves; no entry with the public key of
the sender is among them. -/
theorem rebroadcast_set (env : Env) (d : Dispatcher) (s : Peer) (info : DispatcherInfo)
    (m : PeerMessage) (b : Block) (hreg : d.GetNeighbour s = some info)
    (hsig : env.VerifySignature m (hexEncodeToString info.pub) = true)
    (hb : env.DeserializeBlock m.Payload = some b) :
    ∃ d1, d.handleBlock env s m = some d1 ∧
      d1.sentPeers = d.sentPeers ++
        (d.blockRecipients info).map (fun p => (p.1, Sent.BlockMessage m.Payload)) ∧
      (∀ p, p ∈ d.blockRecipients info ↔
        p ∈ d.neighbors ∧ ∃ q ∈ d.neighbors, q.2.pub = p.2.pub ∧ rebroadcastCondition info q.2) ∧
      ((d.neighbors.map (fun p => p.2.pub)).Nodup →
        ∀ p, p ∈ d.blockRecipients info ↔ p ∈ d.neighbors ∧ rebroadcastCondition info p.2) ∧
      (∀ p ∈ d.blockRecipients info, p.2.pub ≠ info.pub) := by
  refine ⟨_, handleBlock_eq env d s info m b hreg hsig hb, rfl, mem_blockRecipients d info,
    fun hnd => mem_blockRecipients_of_nodup d info hnd, ?_⟩
  intro p hp
  obtain ⟨_, q, _, hx, hc⟩ := (mem_blockRecipients d info p).mp hp
  rw [← hx]
  exact hc.1

/-- C9, amended, on the line 0 – 1 – 2: node 1 re-sends the block of node 0
to node 2 only. -/
theorem rebroadcast_set_witness :
    (lineNet.dispatcherOf 1).GetNeighbour (Peer.conn 0) = some (lineNet.info 0) ∧
    ((lineNet.dispatcherOf 1).neighbors.map (fun p => p.2.pub)).Nodup ∧
    (lineNet.dispatcherOf 1).blockRecipients (lineNet.info 0) = [(Peer.conn 2, lineNet.info 2)] ∧
    ∃ d1, (lineNet.dispatcherOf 1).handleBlock scenarioEnv (Peer.conn 0) blockMsg = some d1 ∧
      d1.sentPeers = (lineNet.dispatcherOf 1).sentPeers ++
        ((lineNet.dispatcherOf 1).blockRecipients (lineNet.info 0)).map
          (fun p => (p.1, Sent.BlockMessage blockMsg.Payload)) :=
  ⟨by decide, by decide, by decide,
    match rebroadcast_set scenarioEnv (lineNet.dispatcherOf 1) (Peer.conn 0) (lineNet.info 0)
        blockMsg [5] (by decide) (by decide) rfl with
    | ⟨d1, h1, h2, _⟩ => ⟨d1, h1, h2⟩⟩

/-- C10 (gossip termination), evaluated on the code: on the ring
0 – 1 – 2 – 3 – 0, a finite connected graph in which every dispatcher records
the actual neighbours of its peers and every signature verifies, the origin 0
sends the block to 1 and 3 and both re-send it to 2, which has received it
twice after four deliveries; and under every delivery order two copies are
under way after any number of deliveries, each delivery being one more
reception: the propagation never stops. -/
theorem gossip_ring_never_stops :
    (∀ u ∈ [0, 1, 2, 3], ∀ v ∈ ringNet.nbrs u, u ∈ ringNet.nbrs v) ∧
    ringNet.originate blockMsg 0 = { inflight := [(0, 1), (0, 3)], received := [] } ∧
    ringNet.gossip scenarioEnv blockMsg (ringNet.originate blockMsg 0) [0, 0, 0, 0] =
      { inflight := [(2, 3), (2, 1)], received := [1, 3, 2, 2] } ∧
    (ringNet.gossip scenarioEnv blockMsg (ringNet.originate blockMsg 0)
      [0, 0, 0, 0]).received.count 2 = 2 ∧
    (∀ order : List Nat,
      (ringNet.gossip scenarioEnv blockMsg (ringNet.originate blockMsg 0) order).inflight.length
        = 2 ∧
      (ringNet.gossip scenarioEnv blockMsg (ringNet.originate blockMsg 0) order).received.length
        = order.length) := by
  refine ⟨by decide, by decide, by decide, by decide, ?_⟩
  intro order
  have horigin :
      ringNet.originate blockMsg 0 = { inflight := [(0, 1), (0, 3)], received := [] } := by
    decide
  have hinit : RingGossipInv (ringNet.originate blockMsg 0) := by
    rw [horigin]
    exact ⟨rfl, by decide⟩
  obtain ⟨hinv, hlen⟩ := ring_gossip_run order _ hinit
  refine ⟨hinv.1, ?_⟩
  rw [hlen, horigin]
  simp

/-- C11 as stated fails for BLOCKREQ on a dialed connection: the read loop of
`HandleNodeConnect` has no BLOCKREQ case, so a BLOCKREQ whose signature does
not verify under the registered key of the sender is answered with INVALID;
registry and chain stay as they are. -/
theorem dialed_blockreq_answered_invalid :
    dialedNeighbour.GetNeighbour (Peer.conn 1) = some { pub := [1], neighbours := ["02"] } ∧
    scenarioPeerEnv.VerifySignature badBlockReq (hexEncodeToString [1]) = false ∧
    dialedNeighbour.nodeHandleMessage scenarioPeerEnv (Peer.conn 1) badBlockReq =
      some { dialedNeighbour with sentPeers := [(Peer.conn 1, Sent.InvalidMessage)] } := by
  decide

/-- C11, amended (signature integrity): let the signature of the message `m`
of a registered neighbour not verify under the registered key. In the
accepted-session variant the cases BLOCK, BLOCKREQ, NEIGHBOURCONNECT and
NEIGHBOURDISCONNECT return and leave the whole dispatcher as it is: registry
with every list of known neighbours, chain, and nothing is sent. In the
dialed-connection variant the same holds of BLOCK, NEIGHBOURCONNECT and
NEIGHBOURDISCONNECT; that variant has no BLOCKREQ case, and a BLOCKREQ is
answered with INVALID to its sender, with nothing else changed. -/
theorem invalid_signature_no_effect (env : PeerEnv) (pub : List Byte) (d : Dispatcher)
    (s : Peer) (info : DispatcherInfo) (m : PeerMessage)
    (hreg : d.GetNeighbour s = some info)
    (hsig : env.VerifySignature m (hexEncodeToString info.pub) = false) :
    ((m.Message = Kind.BLOCK ∨ m.Message = Kind.BLOCKREQ ∨ m.Message = Kind.NEIGHBOURCONNECT ∨
        m.Message = Kind.NEIGHBOURDISCONNECT) → d.dHandleMessage env pub s m = some d) ∧
    ((m.Message = Kind.BLOCK ∨ m.Message = Kind.NEIGHBOURCONNECT ∨
        m.Message = Kind.NEIGHBOURDISCONNECT) → d.nodeHandleMessage env s m = some d) ∧
    (m.Message = Kind.BLOCKREQ →
      d.nodeHandleMessage env s m =
        some { d with sentPeers := d.sentPeers ++ [(s, Sent.InvalidMessage)] }) := by
  refine ⟨?_, ?_, ?_⟩
  · rintro (h | h | h | h)
    · simp [Dispatcher.dHandleMessage, h, Dispatcher.handleBlock, hreg, hsig]
    · simp [Dispatcher.dHandleMessage, h, Dispatcher.handleBlockReq, hreg, hsig]
    · simp [Dispatcher.dHandleMessage, h, Dispatcher.handleNeighbourConnect, hreg, hsig]
    · simp [Dispatcher.dHandleMessage, h, Dispatcher.handleNeighbourDisconnect, hreg, hsig]
  · rintro (h | h | h)
    · simp [Dispatcher.nodeHandleMessage, h, Dispatcher.handleBlock, hreg, hsig]
    · simp [Dispatcher.nodeHandleMessage, h, Dispatcher.handleNeighbourConnect, hreg, hsig]
    · simp [Dispatcher.nodeHandleMessage, h, Dispatcher.nodeNeighbourDisconnect, hreg, hsig]
  · intro h
    simp [Dispatcher.nodeHandleMessage, h]

/-- C11, amended, at a NEIGHBOURCONNECT with a signature that does not
verify: neither variant changes the dispatcher. -/
theorem invalid_signature_no_effect_witness :
    dialedNeighbour.GetNeighbour (Peer.conn 1) = some { pub := [1], neighbours := ["02"] } ∧
    scenarioPeerEnv.VerifySignature badConnect (hexEncodeToString [1]) = false ∧
    dialedNeighbour.dHandleMessage scenarioPeerEnv [9] (Peer.conn 1) badConnect =
      some dialedNeighbour ∧
    dialedNeighbour.nodeHandleMessage scenarioPeerEnv (Peer.conn 1) badConnect =
      some dialedNeighbour :=
  ⟨by decide, by decide,
    (invalid_signature_no_effect scenarioPeerEnv [9] dialedNeighbour (Peer.conn 1)
      { pub := [1], neighbours := ["02"] } badConnect (by decide) (by decide)).1
      (Or.inr (Or.inr (Or.inl rfl))),
    (invalid_signature_no_effect scenarioPeerEnv [9] dialedNeighbour (Peer.conn 1)
      { pub := [1], neighbours := ["02"] } badConnect (by decide) (by decide)).2.1
      (Or.inr (Or.inl rfl))⟩

/-- C12 (execution hash): for an execution whose `Err` and `Result` hold the
byte slices `e` and `r`, `setHash` returns, the hash it stores is `Sum256` of
the decimal rendering of the timestamp, the decimal rendering of the duration,
`e`, `r` and `By`, concatenated in this order with nothing between them, and
every other field stays as it was. -/
theorem setHash_spec (Sum256 : List Byte → List Byte) (j : JobExec) (e r : List Byte)
    (he : j.Err = Iface.bytes e) (hr : j.Result = Iface.bytes r) :
    j.setHash Sum256 =
      some { j with
        Hash := Sum256 (FormatInt10 j.Timestamp ++ FormatInt10 j.Duration ++ e ++ r ++ j.By) } := by
  unfold JobExec.setHash
  rw [he, hr]
  simp [bytesJoin]

/-- C12 at an execution with timestamp 1541376000, duration 250, an empty
error, the result `ok` and the worker key `aa`, with the identity in the place
of the hash function: the hashed bytes are the digits `1541376000`, the digits
`250`, `ok` and the key. The decimal rendering of a negative number starts
with the minus sign. -/
theorem setHash_spec_witness :
    okExec.Err = Iface.bytes [] ∧ okExec.Result = Iface.bytes [111, 107] ∧
    FormatInt10 1541376000 = [49, 53, 52, 49, 51, 55, 54, 48, 48, 48] ∧
    FormatInt10 250 = [50, 53, 48] ∧ FormatInt10 0 = [48] ∧ FormatInt10 (-17) = [45, 49, 55] ∧
    okExec.setHash (fun b => b) =
      some { okExec with
        Hash := [49, 53, 52, 49, 51, 55, 54, 48, 48, 48, 50, 53, 48, 111, 107, 0xAA] } :=
  ⟨rfl, rfl, by decide, by decide, by decide, by decide,
    setHash_spec (fun b => b) okExec [] [111, 107] rfl rfl⟩

/-- C13 (registry lookups never miss), evaluated on the code: session 1 is
accepted, sends SHUT and stays connected; with a job queued, the scheduler
pops the session, finds it shut and deletes its entry; when the session then
disconnects, its last event, the lookup of the disconnect handler finds no
entry and the handler does not return. -/
theorem disconnect_after_shut_misses_entry :
    ∃ d, Dispatcher.run scenarioEnv [9] Dispatcher.init
        [Event.message 1 (helloOf [0xAA]), Event.message 1 shutMsg,
          Event.submit itemJ1 MEDIUM, Event.deploy] = some d ∧
      d.sent = [(1, Sent.HelloMessage [9]), (1, Sent.ShutAckMessage)] ∧
      d.GetWorker 1 = none ∧
      d.wHandleDisconnect 1 = none ∧
      Dispatcher.run scenarioEnv [9] Dispatcher.init
        [Event.message 1 (helloOf [0xAA]), Event.message 1 shutMsg,
          Event.submit itemJ1 MEDIUM, Event.deploy, Event.disconnect 1] = none := by
  refine ⟨_, rfl, by decide, by decide, by decide, by decide⟩

end Gizo
